import Mathlib

/-!
# secret-agent-goph3r: the room registry and client onboarding

A shallow embedding of `main.go`.

* Go strings are Lean `String`s (the embedding covers valid UTF-8 text).
* `*Room` pointers are addresses into an explicit heap (`World.heap`); the map
  `Game.Rooms` stores addresses, so that "the same Room instance" is a statement
  about addresses.  `*Client` values are never mutated after construction and are
  stored by value.
* A callback `func(room *Room)` acts on the room it is handed and on the state it
  captured (`World.env`); it may panic.  It does not reach the registry by
  another path, as the one callback of the program does not.
* `sync.Mutex` is a boolean flag: `Lock` on a held mutex does not proceed.
* A panic unwinds the function it passes through; `OpenRoom` has no deferred
  call, so nothing of `OpenRoom` runs after a panicking callback.  An unrecovered
  panic ends the process.
* The connection is an oracle answering the successive `ReadLine`,
  `WriteString` and `Flush` calls; the session records the calls it issues.  A
  `ReadLine` that fails returns no line (`bufio`: a line or an error, never both).
* The room-name loop need not terminate: `roomLoop` and `newClient` take the
  number of passes to run and say where the session stands after them.
* Goroutines interleave statement by statement (`System.step`); the scheduler is
  an arbitrary list of task indices.
-/

namespace SecretAgent

/-! ## Data model (`main.go` lines 14-18, 64-85) -/

/-- The channel created by `make(chan Message)`: a channel of the given capacity. -/
structure Chan where
  capacity : Nat
deriving DecidableEq, Repr

/-- The struct `Client`: connection handle, nickname, message channel. -/
structure Client where
  Conn : Nat
  Nickname : String
  Ch : Chan
deriving DecidableEq, Repr

/-- The struct `Room`: a name and the ordered list of joined clients. -/
structure Room where
  Name : String
  Clients : List Client
deriving DecidableEq, Repr

/-- The struct `Message` (declared, never produced or consumed). -/
structure Message where
  From : Client
  Text : String
deriving DecidableEq, Repr

/-- The struct `Game`: `Rooms` maps a room name to the address of its room,
`RoomsLock` is the mutex (`true` = held), `Port` the listen port. -/
structure Game where
  Rooms : List (String × Nat)
  RoomsLock : Bool
  Port : Int
deriving DecidableEq, Repr

/-- The function `NewRoom`: a room with the given name and an empty, non-nil client slice. -/
def NewRoom (name : String) : Room :=
  { Name := name, Clients := [] }

/-! ## Go map operations on `map[string]*Room` -/

/-- The lookup `m[k]` with its `ok` flag: `none` when the key is absent. -/
def mapGet (m : List (String × Nat)) (k : String) : Option Nat :=
  match m with
  | [] => none
  | (k1, v) :: rest => if k1 = k then some v else mapGet rest k

/-- The assignment `m[k] = v`: replaces the entry of `k` when present, adds it otherwise. -/
def mapSet (m : List (String × Nat)) (k : String) (v : Nat) : List (String × Nat) :=
  match m with
  | [] => [(k, v)]
  | (k1, v1) :: rest => if k1 = k then (k, v) :: rest else (k1, v1) :: mapSet rest k v

/-! ## Process state and callbacks -/

/-- The process state seen by `OpenRoom`: the game, the heap of rooms, and the
state `env` captured by the callbacks that run against it (for the program
itself, the log). -/
structure World (σ : Type) where
  game : Game
  heap : List Room
  env : σ

/-- What a call of a `func(room *Room)` leaves behind: the contents of the room
it was given, its captured state, and whether it panicked instead of returning. -/
structure CallResult (σ : Type) where
  room : Room
  env : σ
  panicked : Bool

/-- A callback `func(room *Room)`: given the pointer, the room it points to and
its captured state, it acts on that room and on that state. -/
abbrev Mutator (σ : Type) := Nat → Room → σ → CallResult σ

/-- How a call of `OpenRoom` ends: it returns, a panic leaves it, or it waits on
`Lock` for a mutex nobody releases. -/
inductive Exit where
  | returned
  | panicked
  | blocked
deriving DecidableEq, Repr

/-! ## `Game.OpenRoom` (`main.go` lines 43-62), statement by statement -/

/-- The statement `g.RoomsLock.Lock()` on a free mutex. -/
def lockRooms {σ : Type} (w : World σ) : World σ :=
  { w with game := { w.game with RoomsLock := true } }

/-- The statement `g.RoomsLock.Unlock()`. -/
def unlockRooms {σ : Type} (w : World σ) : World σ :=
  { w with game := { w.game with RoomsLock := false } }

/-- The statements `room = NewRoom(name); g.Rooms[name] = room`: the new room is
allocated at the next heap address and stored under `name`. -/
def createRoom {σ : Type} (w : World σ) (name : String) : Nat × World σ :=
  (w.heap.length,
   { w with heap := w.heap ++ [NewRoom name],
            game := { w.game with Rooms := mapSet w.game.Rooms name w.heap.length } })

/-- Lines 48-55: `room, ok := g.Rooms[name]`, and the creation when `!ok`.
Returns the pointer held in `room` afterwards. -/
def lookupOrCreate {σ : Type} (w : World σ) (name : String) : Nat × World σ :=
  match mapGet w.game.Rooms name with
  | some a => (a, w)
  | none => createRoom w name

/-- The call `f(room)` on the room at address `a`; `none` when `a` is not the
address of a room (the callback would dereference an invalid pointer). -/
def callMutator {σ : Type} (w : World σ) (a : Nat) (f : Mutator σ) : Option (World σ × Bool) :=
  match w.heap[a]? with
  | none => none
  | some room =>
    let r := f a room w.env
    some ({ w with heap := w.heap.set a r.room, env := r.env }, r.panicked)

/-- The method `Game.OpenRoom(name, f)`. -/
def OpenRoom {σ : Type} (w : World σ) (name : String) (f : Mutator σ) : World σ × Exit :=
  -- g.RoomsLock.Lock()
  if w.game.RoomsLock then (w, Exit.blocked)
  else
    let w1 := lockRooms w
    -- room, ok := g.Rooms[name]; if !ok ...
    let (a, w2) := lookupOrCreate w1 name
    -- f(room)
    match callMutator w2 a f with
    | none => (w2, Exit.panicked)
    | some (w3, true) => (w3, Exit.panicked)
    | some (w3, false) =>
      -- g.RoomsLock.Unlock()
      (unlockRooms w3, Exit.returned)

/-! ## Library functions the program calls -/

/-- Go's `unicode.IsSpace`: the white space characters of Unicode. -/
def isSpace (c : Char) : Bool :=
  (0x09 ≤ c.toNat && c.toNat ≤ 0x0D) || c.toNat == 0x20 || c.toNat == 0x85 ||
  c.toNat == 0xA0 || c.toNat == 0x1680 || (0x2000 ≤ c.toNat && c.toNat ≤ 0x200A) ||
  c.toNat == 0x2028 || c.toNat == 0x2029 || c.toNat == 0x202F || c.toNat == 0x205F ||
  c.toNat == 0x3000

/-- The characters of a string without its leading and trailing white space. -/
def trimChars (cs : List Char) : List Char :=
  ((cs.dropWhile isSpace).reverse.dropWhile isSpace).reverse

/-- Go's `strings.TrimSpace`: the string without leading and trailing white space. -/
def TrimSpace (s : String) : String :=
  String.mk (trimChars s.data)

/-- The error kinds of `strconv`: `ErrSyntax` and `ErrRange`. -/
inductive NumError where
  | ErrSyntax
  | ErrRange
deriving DecidableEq, Repr

/-- The value of a decimal digit, `none` for any other character. -/
def digitVal (c : Char) : Option Nat :=
  if 48 ≤ c.toNat ∧ c.toNat ≤ 57 then some (c.toNat - 48) else none

/-- The digit loop of `strconv.ParseUint(s, 10, 64)`, with `n` the value so far. -/
def parseDigits : List Char → Nat → Except NumError Nat
  | [], n => Except.ok n
  | c :: rest, n =>
    match digitVal c with
    | none => Except.error NumError.ErrSyntax
    | some d =>
      if n ≥ (2 ^ 64 - 1) / 10 + 1 then Except.error NumError.ErrRange
      else if n * 10 + d > 2 ^ 64 - 1 then Except.error NumError.ErrRange
      else parseDigits rest (n * 10 + d)

/-- Go's `strconv.ParseUint(s, 10, 64)` on the characters of `s`. -/
def parseUint (cs : List Char) : Except NumError Nat :=
  match cs with
  | [] => Except.error NumError.ErrSyntax
  | _ => parseDigits cs 0

/-- The signed part of `strconv.ParseInt(s, 10, 0)` on a 64-bit platform: an
optional sign, then `ParseUint`, then the range check against `int`. -/
def parseInt (cs : List Char) : Except NumError Int :=
  match cs with
  | [] => Except.error NumError.ErrSyntax
  | c :: rest =>
    let neg := c.toNat == 45
    let body := if c.toNat == 43 || c.toNat == 45 then rest else c :: rest
    match parseUint body with
    | Except.error NumError.ErrSyntax => Except.error NumError.ErrSyntax
    | Except.error NumError.ErrRange => Except.error NumError.ErrRange
    | Except.ok un =>
      if !neg && un ≥ 2 ^ 63 then Except.error NumError.ErrRange
      else if neg && un > 2 ^ 63 then Except.error NumError.ErrRange
      else Except.ok (if neg then - (un : Int) else (un : Int))

/-- Go's `strconv.Atoi`: `ParseInt(s, 10, 0)` converted to `int`. -/
def Atoi (s : String) : Except NumError Int :=
  parseInt s.data

/-! ## Logging -/

/-- An argument of a `log.Printf` call. -/
inductive LogArg where
  | str (s : String)
  | int (n : Int)
  | numError (e : NumError)
  | clientPtr (c : Client)
  | roomPtr (a : Nat)
deriving DecidableEq, Repr

/-- One `log.Printf` / `log.Fatalf` call: the format string and its arguments. -/
structure LogEntry where
  format : String
  args : List LogArg
deriving DecidableEq, Repr

/-- The process log: the entries written so far. -/
abbrev Log := List LogEntry

/-- The pattern `if err != nil { log.Printf(format, err.Error()) }`. -/
def logIfErr (log : Log) (format : String) (err : Option String) : Log :=
  match err with
  | none => log
  | some e => log ++ [{ format := format, args := [LogArg.str e] }]

/-! ## The connection and the session on it -/

/-- What one `reader.ReadLine()` call yields: a line, or an error with no line. -/
inductive ReadResult where
  | line (text : String)
  | failure (err : String)
deriving DecidableEq, Repr

/-- A connection `net.Conn` as the program sees it: its handle and the answers to
the successive `ReadLine`, `WriteString` and `Flush` calls made on it. -/
structure Conn where
  handle : Nat
  reads : Nat → ReadResult
  writeErr : Nat → Option String
  flushErr : Nat → Option String

/-- A call issued on the buffered reader or writer of a connection. -/
inductive Call where
  | WriteString (text : String)
  | Flush
  | ReadLine
deriving DecidableEq, Repr

/-- The state of `reader` and `writer`: the calls issued so far, in order, and how
many of each kind. -/
structure Session where
  calls : List Call
  reads : Nat
  writes : Nat
  flushes : Nat
deriving DecidableEq, Repr

/-- The state right after `bufio.NewReader(c)` and `bufio.NewWriter(c)`. -/
def Session.fresh : Session :=
  { calls := [], reads := 0, writes := 0, flushes := 0 }

/-- The call `writer.WriteString(text)`: its error and the session afterwards. -/
def WriteString (c : Conn) (s : Session) (text : String) : Option String × Session :=
  (c.writeErr s.writes,
   { s with calls := s.calls ++ [Call.WriteString text], writes := s.writes + 1 })

/-- The call `writer.Flush()`: its error and the session afterwards. -/
def Flush (c : Conn) (s : Session) : Option String × Session :=
  (c.flushErr s.flushes,
   { s with calls := s.calls ++ [Call.Flush], flushes := s.flushes + 1 })

/-- The call `reader.ReadLine()`: the line and the error (a failed read has no
line, so `string(ans)` is empty), and the session afterwards. -/
def ReadLine (c : Conn) (s : Session) : (String × Option String) × Session :=
  (match c.reads s.reads with
   | ReadResult.line text => (text, none)
   | ReadResult.failure err => ("", some err),
   { s with calls := s.calls ++ [Call.ReadLine], reads := s.reads + 1 })

/-! ## `prompt` (`main.go` lines 108-125) -/

/-- The function `prompt`: the answer, the session and the log afterwards. -/
def prompt (c : Conn) (s : Session) (log : Log) (question : String) :
    String × Session × Log :=
  -- text := fmt.Sprintf("%s: ", question)
  let text := question ++ ": "
  let wr := WriteString c s text
  let log1 := logIfErr log "An error occured writing: %s\n" wr.1
  let fl := Flush c wr.2
  let log2 := logIfErr log1 "An error occured flushing: %s\n" fl.1
  let rd := ReadLine c fl.2
  let log3 := logIfErr log2 "An error occured reading: %s\n" rd.1.2
  -- return string(ans)
  (rd.1.1, rd.2, log3)

/-! ## `newClient` (`main.go` lines 127-172) -/

/-- One pass through the body of the `for` loop, lines 134-152: `some name` when
the pass ends in `break`, `none` when it ends in the retry. -/
def roomLoopBody (c : Conn) (s : Session) (log : Log) : Option String × Session × Log :=
  let p := prompt c s log "Room"
  let roomName := TrimSpace p.1
  if roomName = "" then
    let wr := WriteString c p.2.1 "Invalid room name\n"
    let log1 := logIfErr p.2.2 "An error occured writing: %s\n" wr.1
    let fl := Flush c wr.2
    let log2 := logIfErr log1 "An error occured flushing: %s\n" fl.1
    (none, fl.2, log2)
  else
    (some roomName, p.2.1, p.2.2)

/-- Where the `for` loop of lines 133-153 stands after at most `n` passes: it has
left with a room name, or it is about to prompt again. -/
inductive RoomLoop where
  | awaiting (s : Session) (log : Log)
  | left (roomName : String) (s : Session) (log : Log)
deriving DecidableEq, Repr

/-- The `for` loop of lines 133-153, run for at most `n` passes. -/
def roomLoop (c : Conn) : Nat → Session → Log → RoomLoop
  | 0, s, log => RoomLoop.awaiting s log
  | n + 1, s, log =>
    match roomLoopBody c s log with
    | (some roomName, s1, log1) => RoomLoop.left roomName s1 log1
    | (none, s1, log1) => roomLoop c n s1 log1

/-- The entry of `log.Printf("Added Client(%s)[%p] to Room(%s)[%p]\n", client.Nickname,
client, room.Name, room)`, line 167, with `a` the pointer `room`. -/
def joinEntry (client : Client) (room : Room) (a : Nat) : LogEntry :=
  { format := "Added Client(%s)[%p] to Room(%s)[%p]\n",
    args := [LogArg.str client.Nickname, LogArg.clientPtr client,
             LogArg.str room.Name, LogArg.roomPtr a] }

/-- The callback of lines 163-168: append the client, log the join. -/
def joinMutator (client : Client) : Mutator Log :=
  fun a room log =>
    { room := { room with Clients := room.Clients ++ [client] },
      env := log ++ [joinEntry client { room with Clients := room.Clients ++ [client] } a],
      panicked := false }

/-- Where a session stands: still in the room-name loop, or past `OpenRoom`
(with the way `OpenRoom` ended, the name and the client it was called with). -/
inductive NewClient where
  | awaitingRoomName (w : World Log) (s : Session)
  | opened (w : World Log) (s : Session) (roomName : String) (client : Client) (exit : Exit)

/-- The function `newClient(g, c)`, its room-name loop run for at most `n` passes. -/
def newClient (n : Nat) (w : World Log) (c : Conn) : NewClient :=
  -- reader := bufio.NewReader(c); writer := bufio.NewWriter(c)
  match roomLoop c n Session.fresh w.env with
  | RoomLoop.awaiting s log => NewClient.awaitingRoomName { w with env := log } s
  | RoomLoop.left roomName s log =>
    -- clientName = prompt(reader, writer, "Nickname")
    let p := prompt c s log "Nickname"
    let client : Client := { Nickname := p.1, Conn := c.handle, Ch := { capacity := 0 } }
    -- g.OpenRoom(roomName, func(room *Room) ...)
    let r := OpenRoom { w with env := p.2.2 } roomName (joinMutator client)
    match r.2 with
    | Exit.returned =>
      -- log.Printf("A new client has joined room %s\n", roomName)
      NewClient.opened
        { r.1 with env := r.1.env ++ [{ format := "A new client has joined room %s\n",
                                        args := [LogArg.str roomName] }] }
        p.2.1 roomName client Exit.returned
    | e => NewClient.opened r.1 p.2.1 roomName client e

/-! ## `main` and the start of `Play` (`main.go` lines 20-26, 87-106) -/

/-- An effect of start-up on the outside world. -/
inductive Effect where
  | log (e : LogEntry)
  | exit (code : Int)
  | listen (network : String) (address : String)
deriving DecidableEq, Repr

/-- The call `os.Getenv(key)`: the value, or the empty string when unset. -/
def Getenv (env : String → Option String) (key : String) : String :=
  (env key).getD ""

/-- The call `log.Fatalf(format, args...)`: the entry is logged, the process exits with status 1. -/
def Fatalf (format : String) (args : List LogArg) : List Effect :=
  [Effect.log { format := format, args := args }, Effect.exit 1]

/-- The method `Play` up to the accept loop: the log line, `net.Listen`, and the
fatal exit when listening fails (`listenErr` is the error of `net.Listen`). -/
def Play (g : Game) (listenErr : Option String) : List Effect :=
  [Effect.log { format := "Now listening for connections on port %d\n",
                args := [LogArg.int g.Port] },
   Effect.listen "tcp" (":" ++ toString g.Port)] ++
  match listenErr with
  | some e => Fatalf "Failed to listen on port %d: %s\n" [LogArg.int g.Port, LogArg.str e]
  | none => []

/-- How far `main` gets: it dies in `log.Fatalf`, or it calls `game.Play()`. -/
inductive Startup where
  | fatal (effects : List Effect)
  | play (game : Game)
deriving DecidableEq, Repr

/-- The function `main`, up to the call of `game.Play()`. -/
def main (env : String → Option String) : Startup :=
  let portString := Getenv env "PORT"
  let portString := if portString = "" then "6000" else portString
  match Atoi portString with
  | Except.error e =>
    Startup.fatal (Fatalf "An error occured parsing %s to integer: %s\n"
      [LogArg.str portString, LogArg.numError e])
  | Except.ok portNumber =>
    Startup.play { Rooms := [], RoomsLock := false, Port := portNumber }

/-- The effects of the whole start-up: those of `main`, then those of `Play`. -/
def startup (env : String → Option String) (listenErr : Option String) : List Effect :=
  match main env with
  | Startup.fatal effects => effects
  | Startup.play game => Play game listenErr

/-! ## Vocabulary for the statements about a session -/

/-- The text the `i`-th `ReadLine` call on `c` yields to `string(ans)`. -/
def answer (c : Conn) (i : Nat) : String :=
  match c.reads i with
  | ReadResult.line text => text
  | ReadResult.failure _ => ""

/-- The session after one more `prompt(reader, writer, question)`. -/
def afterPrompt (s : Session) (question : String) : Session :=
  { calls := s.calls ++ [Call.WriteString (question ++ ": "), Call.Flush, Call.ReadLine],
    reads := s.reads + 1, writes := s.writes + 1, flushes := s.flushes + 1 }

/-- The calls of one pass of the room-name loop that ends in the retry. -/
def retryCalls : List Call :=
  [Call.WriteString "Room: ", Call.Flush, Call.ReadLine,
   Call.WriteString "Invalid room name\n", Call.Flush]

/-- The session after `k` more passes of the room-name loop that all ended in the retry. -/
def afterRetries (s : Session) (k : Nat) : Session :=
  { calls := s.calls ++ (List.replicate k retryCalls).flatten,
    reads := s.reads + k, writes := s.writes + 2 * k, flushes := s.flushes + 2 * k }

/-! ## Vocabulary for the statements about the registry -/

/-- The room stored under key `k`: the room at the address the map holds for `k`. -/
def roomAt {σ : Type} (w : World σ) (k : String) : Option Room :=
  match mapGet w.game.Rooms k with
  | none => none
  | some a => w.heap[a]?

/-- The client list stored under key `k`, empty when `k` is absent. -/
def clientsOf {σ : Type} (w : World σ) (k : String) : List Client :=
  match roomAt w k with
  | none => []
  | some room => room.Clients

/-- Every pointer held by the map is the address of a room on the heap. -/
def ValidPointers {σ : Type} (w : World σ) : Prop :=
  ∀ k a, mapGet w.game.Rooms k = some a → a < w.heap.length

/-- The empty registry `Game{Rooms: make(map[string]*Room), Port: port}` with an
empty heap and log. -/
def World.start (port : Int) : World Log :=
  { game := { Rooms := [], RoomsLock := false, Port := port }, heap := [], env := [] }

/-- The client lines 157-161 build on connection `c` from the answer of its `i`-th read. -/
def sessionClient (c : Conn) (i : Nat) : Client :=
  { Nickname := answer c i, Conn := c.handle, Ch := { capacity := 0 } }

/-- The world after lines 163-170 when `OpenRoom` returns: the join of `client`
under `roomName` run against `w` with log `log`, then the last log line. -/
def joinWorld (w : World Log) (log : Log) (roomName : String) (client : Client) : World Log :=
  { (OpenRoom { w with env := log } roomName (joinMutator client)).1 with
    env := (OpenRoom { w with env := log } roomName (joinMutator client)).1.env ++
      [{ format := "A new client has joined room %s\n", args := [LogArg.str roomName] }] }

/-! ## Concrete connections and callbacks used as examples -/

/-- A connection on which every write and flush succeeds and the reads yield
`first`, then `second` for ever. -/
def Conn.scripted (handle : Nat) (first second : ReadResult) : Conn :=
  { handle := handle,
    reads := fun i => if i = 0 then first else second,
    writeErr := fun _ => none,
    flushErr := fun _ => none }

/-- A peer that answers `lobby` to the room prompt and `alice` to the nickname prompt. -/
def connAlice : Conn :=
  Conn.scripted 1 (ReadResult.line "lobby") (ReadResult.line "alice")

/-- A peer that answers `lobby` to the room prompt and `bob` to the nickname prompt. -/
def connBob : Conn :=
  Conn.scripted 2 (ReadResult.line "lobby") (ReadResult.line "bob")

/-- A connection on which every read, write and flush fails. -/
def connBroken : Conn :=
  { handle := 3,
    reads := fun _ => ReadResult.failure "EOF",
    writeErr := fun _ => some "broken pipe",
    flushErr := fun _ => some "broken pipe" }

/-- A callback that panics without touching the room. -/
def panicMutator : Mutator Unit :=
  fun _ room env => { room := room, env := env, panicked := true }

/-- The world after a sequence of onboarding joins: `OpenRoom(name, f)` for each
`(name, client)` in turn, `f` the join callback for `client`. -/
def joinAll (w : World Log) (joins : List (String × Client)) : World Log :=
  joins.foldl (fun w1 j => (OpenRoom w1 j.1 (joinMutator j.2)).1) w

/-- Every key of the registry holds the address of a room whose `Name` is that key. -/
def NamesMatchKeys {σ : Type} (w : World σ) : Prop :=
  ∀ k a, mapGet w.game.Rooms k = some a → ∃ room, w.heap[a]? = some room ∧ room.Name = k

/-! ## Concurrent tasks inside `OpenRoom`

Each connection is served by its own goroutine (`go newClient(g, conn)`), and the
only statements of the program that touch the registry are those of `OpenRoom`.
A task is one goroutine's call `g.OpenRoom(name, f)`; it advances one statement at
a time, and the scheduler picks which task advances next.  Every goroutine of the
program makes one call; a goroutine that made several in a row would be a run in
which the scheduler does not pick the task of a call before the task of the call
before it has returned. -/

/-- Where a task stands in `OpenRoom`: the statement it executes next, with the
pointer held in the local `room` once it is set. -/
inductive PC where
  | atLock
  | atLookup
  | atCreate
  | atCall (room : Nat)
  | atUnlock
  | returned
  | panicked
deriving DecidableEq, Repr

/-- The statements between `Lock` and `Unlock`: a task standing at one of them
holds the mutex (a task whose callback panicked never released it). -/
def PC.holdsLock : PC → Bool
  | PC.atLookup => true
  | PC.atCreate => true
  | PC.atCall _ => true
  | PC.atUnlock => true
  | PC.panicked => true
  | PC.atLock => false
  | PC.returned => false

/-- A goroutine's call `g.OpenRoom(name, f)` and where it stands. -/
structure Task (σ : Type) where
  name : String
  f : Mutator σ
  pc : PC

/-- The next statement of a task, run against the world: `none` when the task
cannot proceed (it waits for the mutex, or it is over). -/
def Task.step {σ : Type} (t : Task σ) (w : World σ) : Option (Task σ × World σ) :=
  match t.pc with
  | PC.atLock =>
    -- g.RoomsLock.Lock()
    if w.game.RoomsLock then none else some ({ t with pc := PC.atLookup }, lockRooms w)
  | PC.atLookup =>
    -- room, ok := g.Rooms[name]; if !ok
    match mapGet w.game.Rooms t.name with
    | some a => some ({ t with pc := PC.atCall a }, w)
    | none => some ({ t with pc := PC.atCreate }, w)
  | PC.atCreate =>
    -- room = NewRoom(name); g.Rooms[name] = room
    some ({ t with pc := PC.atCall (createRoom w t.name).1 }, (createRoom w t.name).2)
  | PC.atCall a =>
    -- f(room)
    match callMutator w a t.f with
    | none => some ({ t with pc := PC.panicked }, w)
    | some (w1, true) => some ({ t with pc := PC.panicked }, w1)
    | some (w1, false) => some ({ t with pc := PC.atUnlock }, w1)
  | PC.atUnlock =>
    -- g.RoomsLock.Unlock()
    some ({ t with pc := PC.returned }, unlockRooms w)
  | PC.returned => none
  | PC.panicked => none

/-- The process: the shared world, its tasks, and whether a panic has ended it. -/
structure System (σ : Type) where
  world : World σ
  tasks : List (Task σ)
  crashed : Bool

/-- Task `i` executes its next statement: `none` when there is no such task, the
task cannot proceed, or the process is over (an unrecovered panic ends it). -/
def System.step {σ : Type} (s : System σ) (i : Nat) : Option (System σ) :=
  if s.crashed then none
  else
    match s.tasks[i]? with
    | none => none
    | some t =>
      match t.step s.world with
      | none => none
      | some (t1, w1) =>
        some { world := w1, tasks := s.tasks.set i t1, crashed := t1.pc == PC.panicked }

/-- The process after the scheduler has picked the tasks of `schedule` in turn; a
pick that cannot proceed leaves the process as it is. -/
def System.run {σ : Type} (s : System σ) : List Nat → System σ
  | [] => s
  | i :: rest =>
    match s.step i with
    | some s1 => System.run s1 rest
    | none => System.run s rest

/-- The process at the start: the empty registry with a free mutex, and one task
per callback, each about to call `OpenRoom(name, f)`. -/
def System.start {σ : Type} (env : σ) (port : Int) (name : String)
    (callbacks : List (Mutator σ)) : System σ :=
  { world := { game := { Rooms := [], RoomsLock := false, Port := port }, heap := [], env := env },
    tasks := callbacks.map (fun f => { name := name, f := f, pc := PC.atLock }),
    crashed := false }

/-- The registry holds the one room created for `name`: the key `name` at address 0
of a heap of one room. -/
def Created {σ : Type} (name : String) (w : World σ) : Prop :=
  w.game.Rooms = [(name, 0)] ∧ w.heap.length = 1

/-- What the place of a task says about the world, when every task calls
`OpenRoom(name, _)` from the empty registry. -/
def TaskOK {σ : Type} (name : String) (w : World σ) (t : Task σ) : Prop :=
  t.name = name ∧ (t.pc.holdsLock = true → w.game.RoomsLock = true) ∧
  (t.pc = PC.atCreate → w.game.Rooms = [] ∧ w.heap = []) ∧
  (∀ a, t.pc = PC.atCall a → a = 0 ∧ Created name w) ∧
  (t.pc = PC.atUnlock → Created name w) ∧
  (t.pc = PC.returned → Created name w)

/-- The invariant of a process whose tasks all call `OpenRoom(name, _)` from the
empty registry. -/
def SameNameInv {σ : Type} (name : String) (s : System σ) : Prop :=
  (∀ (i : Nat) (t : Task σ), s.tasks[i]? = some t → TaskOK name s.world t) ∧
  (∀ (i j : Nat) (ti tj : Task σ), s.tasks[i]? = some ti → s.tasks[j]? = some tj →
    ti.pc.holdsLock = true → tj.pc.holdsLock = true → i = j) ∧
  ((s.world.game.Rooms = [] ∧ s.world.heap = []) ∨ Created name s.world)

/-- The process reached from the start under a schedule. -/
def System.reached {σ : Type} (env : σ) (port : Int) (name : String)
    (callbacks : List (Mutator σ)) (schedule : List Nat) : System σ :=
  (System.start env port name callbacks).run schedule

/-- The number a string of decimal digits denotes, continuing from the value `n`. -/
def decimalValue (cs : List Char) (n : Nat) : Nat :=
  cs.foldl (fun acc c => acc * 10 + (c.toNat - 48)) n

/-- The characters are decimal digits. -/
def AllDigits (cs : List Char) : Prop :=
  ∀ c, c ∈ cs → 48 ≤ c.toNat ∧ c.toNat ≤ 57

/-- The process at the start of a run from world `w`: one task per call
`(name, f)`, each about to call `OpenRoom(name, f)`. -/
def System.init {σ : Type} (w : World σ) (calls : List (String × Mutator σ)) : System σ :=
  { world := w,
    tasks := calls.map (fun c => { name := c.1, f := c.2, pc := PC.atLock }),
    crashed := false }

/-- The world after the calls numbered `order` have been made one after the
other, each to its end, from `w`. -/
def serial {σ : Type} (calls : List (String × Mutator σ)) (w : World σ)
    (order : List Nat) : World σ :=
  order.foldl (fun w1 i =>
    match calls[i]? with
    | some c => (OpenRoom w1 c.1 c.2).1
    | none => w1) w

/-- Every room on the heap is stored in the map under a key of its own: the keys
are distinct and the addresses are those of the heap, in the order of creation. -/
def OneRoomPerKey {σ : Type} (w : World σ) : Prop :=
  (w.game.Rooms.map Prod.fst).Nodup ∧ w.game.Rooms.map Prod.snd = List.range w.heap.length

/-- How far the task holding the mutex has got in its call, started in world
`ws`: the world `w` is what the statements it has executed made of `ws`. -/
def Held {σ : Type} (ws : World σ) (t : Task σ) (w : World σ) (crashed : Bool) : Prop :=
  match t.pc with
  | PC.atLookup => w = lockRooms ws ∧ crashed = false
  | PC.atCreate =>
    w = lockRooms ws ∧ mapGet ws.game.Rooms t.name = none ∧ crashed = false
  | PC.atCall a => lookupOrCreate (lockRooms ws) t.name = (a, w) ∧ crashed = false
  | PC.atUnlock =>
    OpenRoom ws t.name t.f = (unlockRooms w, Exit.returned) ∧ w.game.RoomsLock = true ∧
      crashed = false
  | PC.panicked => OpenRoom ws t.name t.f = (w, Exit.panicked) ∧ crashed = true
  | PC.atLock => True
  | PC.returned => True

/-- The invariant of a process started by `System.init w0 calls`: the calls that
have returned did so in the order `order`, and the world is what these calls
made one after the other leave, advanced by the statements the task holding the
mutex (if any) has executed. -/
structure Serial {σ : Type} (calls : List (String × Mutator σ)) (w0 : World σ)
    (s : System σ) (order : List Nat) : Prop where
  nodup : order.Nodup
  mem : ∀ i, i ∈ order ↔ ∃ t : Task σ, s.tasks[i]? = some t ∧ t.pc = PC.returned
  tasks : ∀ i : Nat, (s.tasks[i]?).map (fun t : Task σ => (t.name, t.f)) = calls[i]?
  free : (serial calls w0 order).game.RoomsLock = false
  idle : (∀ (i : Nat) (t : Task σ), s.tasks[i]? = some t → t.pc.holdsLock = false) →
    s.world = serial calls w0 order ∧ s.crashed = false
  held : ∀ (i : Nat) (t : Task σ), s.tasks[i]? = some t → t.pc.holdsLock = true →
    Held (serial calls w0 order) t s.world s.crashed
  unique : ∀ (i j : Nat) (ti tj : Task σ), s.tasks[i]? = some ti → s.tasks[j]? = some tj →
    ti.pc.holdsLock = true → tj.pc.holdsLock = true → i = j
  shape : OneRoomPerKey s.world

/-- The statements a task still has to execute, at most. -/
def PC.remaining : PC → Nat
  | PC.atLock => 5
  | PC.atLookup => 4
  | PC.atCreate => 3
  | PC.atCall _ => 2
  | PC.atUnlock => 1
  | PC.returned => 0
  | PC.panicked => 0

/-- The statements the tasks of a process still have to execute, at most. -/
def System.remaining {σ : Type} (s : System σ) : Nat :=
  (s.tasks.map (fun t => t.pc.remaining)).sum

/-- The process reached from world `w` by the tasks of `calls` under a schedule. -/
def System.reachedFrom {σ : Type} (w : World σ) (calls : List (String × Mutator σ))
    (schedule : List Nat) : System σ :=
  (System.init w calls).run schedule

/-! ## Lemmas on the map operations -/

theorem mapGet_mapSet_same (m : List (String × Nat)) (k : String) (v : Nat) :
    mapGet (mapSet m k v) k = some v := by
  induction m with
  | nil => simp [mapSet, mapGet]
  | cons p rest ih =>
    obtain ⟨k1, v1⟩ := p
    by_cases h : k1 = k
    · simp [mapSet, mapGet, h]
    · simp [mapSet, mapGet, h, ih]

theorem mapGet_mapSet_other (m : List (String × Nat)) (k k2 : String) (v : Nat)
    (hne : k2 ≠ k) : mapGet (mapSet m k v) k2 = mapGet m k2 := by
  induction m with
  | nil =>
    have h : ¬ k = k2 := fun e => hne e.symm
    simp [mapSet, mapGet, h]
  | cons p rest ih =>
    obtain ⟨k1, v1⟩ := p
    by_cases h : k1 = k
    · subst h
      have h2 : ¬ k1 = k2 := fun e => hne e.symm
      simp [mapSet, mapGet, h2]
    · by_cases h3 : k1 = k2
      · subst h3
        simp [mapSet, mapGet, hne]
      · simp [mapSet, mapGet, h, h3, ih]

/-! ## `OpenRoom`: get-or-create-then-mutate -/

/-- The address `OpenRoom` hands to the callback and the world just before the call. -/
theorem OpenRoom_eq {σ : Type} (w : World σ) (name : String) (f : Mutator σ)
    (hfree : w.game.RoomsLock = false) :
    OpenRoom w name f =
      match callMutator (lookupOrCreate (lockRooms w) name).2
          (lookupOrCreate (lockRooms w) name).1 f with
      | none => ((lookupOrCreate (lockRooms w) name).2, Exit.panicked)
      | some (w3, true) => (w3, Exit.panicked)
      | some (w3, false) => (unlockRooms w3, Exit.returned) := by
  simp [OpenRoom, hfree]

/-- C1: with the mutex free, `OpenRoom(name, f)` on an absent name runs `f` once on
`NewRoom(name)`, allocated at a fresh address stored under `name`; on a present
name it runs `f` once on the room already stored there and leaves the map as it
was; the keys afterwards are the keys before plus `name`, and the entry of every
other key is unchanged. -/
theorem OpenRoom_get_or_create {σ : Type} (w : World σ) (name : String) (f : Mutator σ)
    (hfree : w.game.RoomsLock = false) :
    (mapGet w.game.Rooms name = none →
      (NewRoom name).Name = name ∧ (NewRoom name).Clients = [] ∧
      (OpenRoom w name f).1.heap = w.heap ++ [(f w.heap.length (NewRoom name) w.env).room] ∧
      (OpenRoom w name f).1.env = (f w.heap.length (NewRoom name) w.env).env ∧
      mapGet (OpenRoom w name f).1.game.Rooms name = some w.heap.length) ∧
    (∀ a room, mapGet w.game.Rooms name = some a → w.heap[a]? = some room →
      (OpenRoom w name f).1.heap = w.heap.set a (f a room w.env).room ∧
      (OpenRoom w name f).1.env = (f a room w.env).env ∧
      (OpenRoom w name f).1.game.Rooms = w.game.Rooms) ∧
    (∀ k, (mapGet (OpenRoom w name f).1.game.Rooms k).isSome = true ↔
      ((mapGet w.game.Rooms k).isSome = true ∨ k = name)) ∧
    (∀ k, k ≠ name →
      mapGet (OpenRoom w name f).1.game.Rooms k = mapGet w.game.Rooms k) := by
  rw [OpenRoom_eq w name f hfree]
  cases hget : mapGet w.game.Rooms name with
  | none =>
    have hlc : lookupOrCreate (lockRooms w) name = createRoom (lockRooms w) name := by
      simp [lookupOrCreate, lockRooms, hget]
    have hcall : callMutator (createRoom (lockRooms w) name).2
        (createRoom (lockRooms w) name).1 f =
        some (⟨(createRoom (lockRooms w) name).2.game,
                w.heap ++ [(f w.heap.length (NewRoom name) w.env).room],
                (f w.heap.length (NewRoom name) w.env).env⟩,
              (f w.heap.length (NewRoom name) w.env).panicked) := by
      simp [callMutator, createRoom, lockRooms]
    rw [hlc, hcall]
    have hrooms : (createRoom (lockRooms w) name).2.game.Rooms =
        mapSet w.game.Rooms name w.heap.length := by
      simp [createRoom, lockRooms]
    have hkeys : ∀ k, (mapGet (mapSet w.game.Rooms name w.heap.length) k).isSome = true ↔
        ((mapGet w.game.Rooms k).isSome = true ∨ k = name) := by
      intro k
      by_cases hk : k = name
      · subst hk
        simp [mapGet_mapSet_same]
      · simp [mapGet_mapSet_other _ _ _ _ hk, hk]
    cases hp : (f w.heap.length (NewRoom name) w.env).panicked <;>
      simp [unlockRooms, hrooms, mapGet_mapSet_same, NewRoom, hkeys] <;>
      exact fun k hk => mapGet_mapSet_other _ _ _ _ hk
  | some a =>
    have hlc : lookupOrCreate (lockRooms w) name = (a, lockRooms w) := by
      simp [lookupOrCreate, lockRooms, hget]
    rw [hlc]
    have hkeys : ∀ k, (mapGet w.game.Rooms k).isSome = true ↔
        ((mapGet w.game.Rooms k).isSome = true ∨ k = name) := by
      intro k
      constructor
      · exact fun h => Or.inl h
      · rintro (h | h)
        · exact h
        · subst h
          simp [hget]
    cases hroom : w.heap[a]? with
    | none =>
      have hcall : callMutator (lockRooms w) a f = none := by
        simp [callMutator, lockRooms, hroom]
      simp only [hcall]
      refine ⟨fun h => by simp at h, ?_, hkeys, fun k _ => rfl⟩
      intro a1 room1 h1 h2
      simp at h1
      subst h1
      simp [hroom] at h2
    | some room =>
      have hcall : callMutator (lockRooms w) a f =
          some (⟨(lockRooms w).game, w.heap.set a (f a room w.env).room,
                  (f a room w.env).env⟩, (f a room w.env).panicked) := by
        simp [callMutator, lockRooms, hroom]
      simp only [hcall]
      have hmain : ∀ a1 room1, some a = some a1 → w.heap[a1]? = some room1 →
          w.heap.set a (f a room w.env).room = w.heap.set a1 (f a1 room1 w.env).room ∧
          (f a room w.env).env = (f a1 room1 w.env).env := by
        intro a1 room1 h1 h2
        simp at h1
        subst h1
        rw [hroom] at h2
        simp at h2
        subst h2
        exact ⟨rfl, rfl⟩
      cases hp : (f a room w.env).panicked
      · refine ⟨fun h => by simp at h, ?_, hkeys, fun k _ => rfl⟩
        intro a1 room1 h1 h2
        exact ⟨(hmain a1 room1 h1 h2).1, (hmain a1 room1 h1 h2).2, rfl⟩
      · refine ⟨fun h => by simp at h, ?_, hkeys, fun k _ => rfl⟩
        intro a1 room1 h1 h2
        exact ⟨(hmain a1 room1 h1 h2).1, (hmain a1 room1 h1 h2).2, rfl⟩

/-- The witness of C1: a join under `lobby` on the empty registry creates the key. -/
theorem OpenRoom_get_or_create_witness :
    mapGet (OpenRoom (World.start 6000) "lobby"
      (joinMutator (sessionClient connAlice 1))).1.game.Rooms "lobby" = some 0 :=
  ((OpenRoom_get_or_create (World.start 6000) "lobby"
    (joinMutator (sessionClient connAlice 1)) rfl).1 rfl).2.2.2.2

/-! ## `prompt` and one pass of the room-name loop -/

theorem prompt_answer (c : Conn) (s : Session) (log : Log) (q : String) :
    (prompt c s log q).1 = answer c s.reads := by
  simp only [prompt, ReadLine, Flush, WriteString, answer]
  cases c.reads s.reads <;> rfl

theorem prompt_session (c : Conn) (s : Session) (log : Log) (q : String) :
    (prompt c s log q).2.1 = afterPrompt s q := by
  simp [prompt, ReadLine, Flush, WriteString, afterPrompt]

theorem roomLoopBody_retry (c : Conn) (s : Session) (log : Log)
    (h : TrimSpace (answer c s.reads) = "") :
    ∃ log1, roomLoopBody c s log = (none, afterRetries s 1, log1) := by
  refine ⟨(roomLoopBody c s log).2.2, ?_⟩
  have hp := prompt_answer c s log "Room"
  have hs := prompt_session c s log "Room"
  simp only [roomLoopBody, hp, h, if_true, hs]
  simp [afterRetries, afterPrompt, WriteString, Flush, retryCalls]

theorem roomLoopBody_break (c : Conn) (s : Session) (log : Log)
    (h : TrimSpace (answer c s.reads) ≠ "") :
    ∃ log1, roomLoopBody c s log =
      (some (TrimSpace (answer c s.reads)), afterPrompt s "Room", log1) := by
  refine ⟨(roomLoopBody c s log).2.2, ?_⟩
  have hp := prompt_answer c s log "Room"
  have hs := prompt_session c s log "Room"
  simp only [roomLoopBody, hp, h, if_false, hs]

/-! ## The room-name loop -/

theorem afterRetries_zero (s : Session) : afterRetries s 0 = s := by
  cases s
  simp [afterRetries]

theorem afterRetries_succ (s : Session) (k : Nat) :
    afterRetries (afterRetries s 1) k = afterRetries s (k + 1) := by
  simp only [afterRetries, Session.mk.injEq]
  refine ⟨?_, by omega, by omega, by omega⟩
  simp [List.replicate_succ]

/-- While the reads yield nothing but white space, every pass ends in the retry. -/
theorem roomLoop_skip (c : Conn) (k : Nat) :
    ∀ (s : Session) (log : Log),
      (∀ i, i < k → TrimSpace (answer c (s.reads + i)) = "") →
      ∃ log1, ∀ n, roomLoop c (k + n) s log = roomLoop c n (afterRetries s k) log1 := by
  induction k with
  | zero =>
    intro s log _
    exact ⟨log, fun n => by simp [afterRetries_zero]⟩
  | succ k ih =>
    intro s log h
    obtain ⟨log1, h1⟩ := roomLoopBody_retry c s log (by simpa using h 0 (by omega))
    have hk : ∀ i, i < k → TrimSpace (answer c ((afterRetries s 1).reads + i)) = "" := by
      intro i hi
      have := h (i + 1) (by omega)
      simpa [afterRetries, Nat.add_assoc, Nat.add_comm 1 i] using this
    obtain ⟨log2, h2⟩ := ih (afterRetries s 1) log1 hk
    refine ⟨log2, fun n => ?_⟩
    have hn : k + 1 + n = (k + n) + 1 := by omega
    rw [hn, roomLoop, h1]
    simp only
    rw [h2 n, afterRetries_succ]

/-- The loop is left on the first read whose trimmed text is not empty. -/
theorem roomLoop_left (c : Conn) (k n : Nat) (s : Session) (log : Log)
    (hskip : ∀ i, i < k → TrimSpace (answer c (s.reads + i)) = "")
    (hgood : TrimSpace (answer c (s.reads + k)) ≠ "") :
    ∃ log1, roomLoop c (k + (n + 1)) s log =
      RoomLoop.left (TrimSpace (answer c (s.reads + k)))
        (afterPrompt (afterRetries s k) "Room") log1 := by
  obtain ⟨log1, h1⟩ := roomLoop_skip c k s log hskip
  have hr : (afterRetries s k).reads = s.reads + k := rfl
  obtain ⟨log2, h2⟩ := roomLoopBody_break c (afterRetries s k) log1 (by rw [hr]; exact hgood)
  refine ⟨log2, ?_⟩
  rw [h1 (n + 1), roomLoop, h2, hr]

/-- As long as every read so far trimmed to nothing, the loop is still prompting. -/
theorem roomLoop_awaiting (c : Conn) (k : Nat) (s : Session) (log : Log)
    (hskip : ∀ i, i < k → TrimSpace (answer c (s.reads + i)) = "") :
    ∃ log1, roomLoop c k s log = RoomLoop.awaiting (afterRetries s k) log1 := by
  obtain ⟨log1, h1⟩ := roomLoop_skip c k s log hskip
  refine ⟨log1, ?_⟩
  have := h1 0
  simpa [roomLoop] using this

/-! ## `TrimSpace` -/

theorem dropWhile_append_all (f : Char → Bool) (p l : List Char)
    (h : ∀ x, x ∈ p → f x = true) : (p ++ l).dropWhile f = l.dropWhile f := by
  induction p with
  | nil => rfl
  | cons x p ih =>
    have hx : f x = true := h x (List.mem_cons_self x p)
    simp only [List.cons_append, List.dropWhile_cons, hx, if_true]
    exact ih (fun y hy => h y (List.mem_cons_of_mem x hy))

theorem dropWhile_all (f : Char → Bool) (p : List Char)
    (h : ∀ x, x ∈ p → f x = true) : p.dropWhile f = [] := by
  have := dropWhile_append_all f p [] h
  simpa using this

theorem dropWhile_append_of_ne_nil (f : Char → Bool) (t q : List Char)
    (h : t.dropWhile f ≠ []) : (t ++ q).dropWhile f = t.dropWhile f ++ q := by
  induction t with
  | nil => simp at h
  | cons x t ih =>
    by_cases hx : f x = true
    · simp only [List.cons_append, List.dropWhile_cons, hx, if_true] at h ⊢
      exact ih h
    · simp [List.dropWhile_cons, hx]

/-- White space around a text does not change what `trimChars` keeps of it. -/
theorem trimChars_pad (p t q : List Char)
    (hp : ∀ x, x ∈ p → isSpace x = true) (hq : ∀ x, x ∈ q → isSpace x = true) :
    trimChars (p ++ t ++ q) = trimChars t := by
  unfold trimChars
  rw [List.append_assoc, dropWhile_append_all isSpace p (t ++ q) hp]
  by_cases ht : t.dropWhile isSpace = []
  · have hall : ∀ x, x ∈ t → isSpace x = true := by
      intro x hx
      by_contra hc
      have := List.dropWhile_eq_nil_iff.mp ht x hx
      exact hc this
    rw [dropWhile_append_all isSpace t q hall, dropWhile_all isSpace q hq, ht]
  · rw [dropWhile_append_of_ne_nil isSpace t q ht, List.reverse_append,
      dropWhile_append_all isSpace q.reverse _ (fun x hx => hq x (List.mem_reverse.mp hx))]

/-- White space around a line does not change its trimmed text. -/
theorem TrimSpace_pad (pre text post : String)
    (hpre : ∀ x, x ∈ pre.data → isSpace x = true)
    (hpost : ∀ x, x ∈ post.data → isSpace x = true) :
    TrimSpace (pre ++ text ++ post) = TrimSpace text := by
  simp only [TrimSpace, String.data_append]
  rw [trimChars_pad pre.data text.data post.data hpre hpost]

/-! ## `OpenRoom` with the join callback -/

theorem OpenRoom_join_absent (w : World Log) (r : String) (c : Client)
    (hfree : w.game.RoomsLock = false) (hget : mapGet w.game.Rooms r = none) :
    OpenRoom w r (joinMutator c) =
      ({ game := { w.game with Rooms := mapSet w.game.Rooms r w.heap.length },
         heap := w.heap ++ [{ Name := r, Clients := [c] }],
         env := w.env ++ [joinEntry c (NewRoom r) w.heap.length] }, Exit.returned) := by
  obtain ⟨⟨rooms, lock, port⟩, heap, env⟩ := w
  simp only at hfree hget
  subst hfree
  simp [OpenRoom, lockRooms, lookupOrCreate, hget, createRoom, callMutator, joinMutator,
    unlockRooms, NewRoom, joinEntry]

theorem OpenRoom_join_present (w : World Log) (r : String) (c : Client) (a : Nat)
    (room : Room) (hfree : w.game.RoomsLock = false)
    (hget : mapGet w.game.Rooms r = some a) (hroom : w.heap[a]? = some room) :
    OpenRoom w r (joinMutator c) =
      ({ game := w.game,
         heap := w.heap.set a { room with Clients := room.Clients ++ [c] },
         env := w.env ++ [joinEntry c room a] }, Exit.returned) := by
  obtain ⟨⟨rooms, lock, port⟩, heap, env⟩ := w
  simp only at hfree hget hroom
  subst hfree
  simp [OpenRoom, lockRooms, lookupOrCreate, hget, callMutator, hroom, joinMutator,
    unlockRooms, joinEntry]

theorem OpenRoom_join_cases (w : World Log) (r : String) (c : Client)
    (hfree : w.game.RoomsLock = false) (hvalid : ValidPointers w) :
    (mapGet w.game.Rooms r = none ∧
      OpenRoom w r (joinMutator c) =
        ({ game := { w.game with Rooms := mapSet w.game.Rooms r w.heap.length },
           heap := w.heap ++ [{ Name := r, Clients := [c] }],
           env := w.env ++ [joinEntry c (NewRoom r) w.heap.length] }, Exit.returned)) ∨
    (∃ a room, mapGet w.game.Rooms r = some a ∧ w.heap[a]? = some room ∧
      OpenRoom w r (joinMutator c) =
        ({ game := w.game,
           heap := w.heap.set a { room with Clients := room.Clients ++ [c] },
           env := w.env ++ [joinEntry c room a] }, Exit.returned)) := by
  cases hget : mapGet w.game.Rooms r with
  | none => exact Or.inl ⟨rfl, OpenRoom_join_absent w r c hfree hget⟩
  | some a =>
    have hlt : a < w.heap.length := hvalid r a hget
    have hroom : w.heap[a]? = some (w.heap[a]) := List.getElem?_eq_getElem hlt
    exact Or.inr ⟨a, w.heap[a], rfl, hroom, OpenRoom_join_present w r c a _ hfree hget hroom⟩

theorem OpenRoom_join_exit (w : World Log) (r : String) (c : Client)
    (hfree : w.game.RoomsLock = false) (hvalid : ValidPointers w) :
    (OpenRoom w r (joinMutator c)).2 = Exit.returned ∧
    (OpenRoom w r (joinMutator c)).1.game.RoomsLock = false ∧
    (OpenRoom w r (joinMutator c)).1.game.Port = w.game.Port := by
  rcases OpenRoom_join_cases w r c hfree hvalid with ⟨_, h⟩ | ⟨a, room, _, _, h⟩
  · rw [h]; exact ⟨rfl, hfree, rfl⟩
  · rw [h]; exact ⟨rfl, hfree, rfl⟩

theorem OpenRoom_join_valid (w : World Log) (r : String) (c : Client)
    (hfree : w.game.RoomsLock = false) (hvalid : ValidPointers w) :
    ValidPointers (OpenRoom w r (joinMutator c)).1 := by
  rcases OpenRoom_join_cases w r c hfree hvalid with ⟨_, h⟩ | ⟨a, room, _, _, h⟩
  · rw [h]
    intro k b hk
    simp only at hk
    simp only [List.length_append, List.length_singleton]
    by_cases hkr : k = r
    · subst hkr
      rw [mapGet_mapSet_same] at hk
      simp at hk
      omega
    · rw [mapGet_mapSet_other _ _ _ _ hkr] at hk
      have := hvalid k b hk
      omega
  · rw [h]
    intro k b hk
    simp only [List.length_set]
    exact hvalid k b hk

theorem OpenRoom_join_clients (w : World Log) (r : String) (c : Client)
    (hfree : w.game.RoomsLock = false) (hvalid : ValidPointers w) :
    clientsOf (OpenRoom w r (joinMutator c)).1 r = clientsOf w r ++ [c] := by
  rcases OpenRoom_join_cases w r c hfree hvalid with ⟨hget, h⟩ | ⟨a, room, hget, hroom, h⟩
  · rw [h]
    simp [clientsOf, roomAt, hget, mapGet_mapSet_same]
  · rw [h]
    have hlt : a < w.heap.length := hvalid r a hget
    simp [clientsOf, roomAt, hget, hroom, hlt]

theorem OpenRoom_join_keeps (w : World Log) (r : String) (c : Client)
    (hfree : w.game.RoomsLock = false) (hvalid : ValidPointers w) (k : String) :
    ∃ t, clientsOf (OpenRoom w r (joinMutator c)).1 k = clientsOf w k ++ t := by
  by_cases hkr : k = r
  · subst hkr
    exact ⟨[c], OpenRoom_join_clients w k c hfree hvalid⟩
  rcases OpenRoom_join_cases w r c hfree hvalid with ⟨hget, h⟩ | ⟨a, room, hget, hroom, h⟩
  · rw [h]
    refine ⟨[], ?_⟩
    cases hk : mapGet w.game.Rooms k with
    | none => simp [clientsOf, roomAt, mapGet_mapSet_other _ _ _ _ hkr, hk]
    | some b =>
      have hlt : b < w.heap.length := hvalid k b hk
      simp [clientsOf, roomAt, mapGet_mapSet_other _ _ _ _ hkr, hk,
        List.getElem?_append_left hlt]
  · rw [h]
    cases hk : mapGet w.game.Rooms k with
    | none => exact ⟨[], by simp [clientsOf, roomAt, hk]⟩
    | some b =>
      by_cases hba : a = b
      · subst hba
        have hlt : a < w.heap.length := hvalid r a hget
        exact ⟨[c], by simp [clientsOf, roomAt, hk, hroom, hlt]⟩
      · exact ⟨[], by simp [clientsOf, roomAt, hk, List.getElem?_set_ne hba]⟩

/-! ## The two ways the room-name loop can stand after `n` passes -/

theorem roomLoop_cases (c : Conn) (n : Nat) (s : Session) (log : Log) :
    (∃ log1, (∀ i, i < n → TrimSpace (answer c (s.reads + i)) = "") ∧
      roomLoop c n s log = RoomLoop.awaiting (afterRetries s n) log1) ∨
    (∃ k log1, k < n ∧ (∀ i, i < k → TrimSpace (answer c (s.reads + i)) = "") ∧
      TrimSpace (answer c (s.reads + k)) ≠ "" ∧
      roomLoop c n s log = RoomLoop.left (TrimSpace (answer c (s.reads + k)))
        (afterPrompt (afterRetries s k) "Room") log1) := by
  by_cases hall : ∀ i, i < n → TrimSpace (answer c (s.reads + i)) = ""
  · obtain ⟨log1, h1⟩ := roomLoop_awaiting c n s log hall
    exact Or.inl ⟨log1, hall, h1⟩
  · have hex : ∃ i, i < n ∧ TrimSpace (answer c (s.reads + i)) ≠ "" := by
      by_contra hne
      apply hall
      intro i hi
      by_contra hc
      exact hne ⟨i, hi, hc⟩
    classical
    have hk := Nat.find_spec hex
    have hmin : ∀ i, i < Nat.find hex → TrimSpace (answer c (s.reads + i)) = "" := by
      intro i hi
      by_contra hc
      exact Nat.find_min hex hi ⟨by omega, hc⟩
    obtain ⟨m, hm⟩ : ∃ m, n = Nat.find hex + (m + 1) := ⟨n - Nat.find hex - 1, by omega⟩
    obtain ⟨log1, h1⟩ := roomLoop_left c (Nat.find hex) m s log hmin hk.2
    refine Or.inr ⟨Nat.find hex, log1, hk.1, hmin, hk.2, ?_⟩
    rw [← h1, ← hm]

/-! ## `newClient` -/

/-- Once the loop is left with a room name the session prompts for the nickname
once and calls `OpenRoom`, which returns. -/
theorem newClient_of_left (n : Nat) (w : World Log) (c : Conn) (roomName : String)
    (s : Session) (log : Log) (hfree : w.game.RoomsLock = false) (hvalid : ValidPointers w)
    (hloop : roomLoop c n Session.fresh w.env = RoomLoop.left roomName s log) :
    newClient n w c = NewClient.opened
      (joinWorld w (prompt c s log "Nickname").2.2 roomName (sessionClient c s.reads))
      (afterPrompt s "Nickname") roomName (sessionClient c s.reads) Exit.returned := by
  have hfree1 : ({ w with env := (prompt c s log "Nickname").2.2 } : World Log).game.RoomsLock
      = false := hfree
  have hvalid1 : ValidPointers ({ w with env := (prompt c s log "Nickname").2.2 } : World Log) :=
    hvalid
  have hex := (OpenRoom_join_exit _ roomName (sessionClient c s.reads) hfree1 hvalid1).1
  unfold sessionClient at hex
  simp only [newClient, hloop, prompt_answer, prompt_session, hex, joinWorld, sessionClient]

theorem newClient_of_awaiting (n : Nat) (w : World Log) (c : Conn) (s : Session) (log : Log)
    (hloop : roomLoop c n Session.fresh w.env = RoomLoop.awaiting s log) :
    newClient n w c = NewClient.awaitingRoomName { w with env := log } s := by
  simp only [newClient, hloop]

theorem joinWorld_clients (w : World Log) (log : Log) (r : String) (cl : Client)
    (hfree : w.game.RoomsLock = false) (hvalid : ValidPointers w) :
    clientsOf (joinWorld w log r cl) r = clientsOf w r ++ [cl] :=
  OpenRoom_join_clients { w with env := log } r cl hfree hvalid

theorem joinWorld_keeps (w : World Log) (log : Log) (r : String) (cl : Client)
    (hfree : w.game.RoomsLock = false) (hvalid : ValidPointers w) (k : String) :
    ∃ t, clientsOf (joinWorld w log r cl) k = clientsOf w k ++ t :=
  OpenRoom_join_keeps { w with env := log } r cl hfree hvalid k

theorem joinWorld_free (w : World Log) (log : Log) (r : String) (cl : Client)
    (hfree : w.game.RoomsLock = false) (hvalid : ValidPointers w) :
    (joinWorld w log r cl).game.RoomsLock = false :=
  (OpenRoom_join_exit { w with env := log } r cl hfree hvalid).2.1

theorem joinWorld_valid (w : World Log) (log : Log) (r : String) (cl : Client)
    (hfree : w.game.RoomsLock = false) (hvalid : ValidPointers w) :
    ValidPointers (joinWorld w log r cl) :=
  OpenRoom_join_valid { w with env := log } r cl hfree hvalid

/-- A session either is still in the room-name loop, every read so far having
trimmed to nothing, or it left the loop on the first read with a non-empty
trimmed text, read the nickname and joined. -/
theorem newClient_cases (n : Nat) (w : World Log) (c : Conn)
    (hfree : w.game.RoomsLock = false) (hvalid : ValidPointers w) :
    (∃ log1, (∀ i, i < n → TrimSpace (answer c i) = "") ∧
      newClient n w c =
        NewClient.awaitingRoomName { w with env := log1 } (afterRetries Session.fresh n)) ∨
    (∃ k log1, k < n ∧ (∀ i, i < k → TrimSpace (answer c i) = "") ∧
      TrimSpace (answer c k) ≠ "" ∧
      newClient n w c = NewClient.opened
        (joinWorld w log1 (TrimSpace (answer c k)) (sessionClient c (k + 1)))
        (afterPrompt (afterPrompt (afterRetries Session.fresh k) "Room") "Nickname")
        (TrimSpace (answer c k)) (sessionClient c (k + 1)) Exit.returned) := by
  have h0 : ∀ i, Session.fresh.reads + i = i := fun i => by simp [Session.fresh]
  rcases roomLoop_cases c n Session.fresh w.env with ⟨log1, hall, hl⟩ | ⟨k, log1, hk, hmin, hgood, hl⟩
  · refine Or.inl ⟨log1, ?_, newClient_of_awaiting n w c _ _ hl⟩
    intro i hi
    simpa [h0] using hall i hi
  · rw [h0] at hgood hl
    have hnc := newClient_of_left n w c _ _ _ hfree hvalid hl
    have hr : (afterPrompt (afterRetries Session.fresh k) "Room").reads = k + 1 := by
      simp [afterPrompt, afterRetries, Session.fresh]
    rw [hr] at hnc
    refine Or.inr ⟨k, _, hk, ?_, hgood, hnc⟩
    intro i hi
    simpa [h0] using hmin i hi

theorem ValidPointers_start (port : Int) : ValidPointers (World.start port) := by
  intro k a h
  simp [World.start, mapGet] at h

theorem joinWorld_present (w : World Log) (log : Log) (r : String) (cl : Client)
    (hfree : w.game.RoomsLock = false) (hvalid : ValidPointers w) :
    ∃ a, mapGet (joinWorld w log r cl).game.Rooms r = some a := by
  have hfree1 : ({ w with env := log } : World Log).game.RoomsLock = false := hfree
  have hvalid1 : ValidPointers ({ w with env := log } : World Log) := hvalid
  rcases OpenRoom_join_cases _ r cl hfree1 hvalid1 with ⟨_, h⟩ | ⟨a, room, hget, _, h⟩
  · exact ⟨w.heap.length, by simp only [joinWorld, h]; exact mapGet_mapSet_same _ _ _⟩
  · exact ⟨a, by simp only [joinWorld, h]; exact hget⟩

theorem joinWorld_other (w : World Log) (log : Log) (r : String) (cl : Client)
    (hfree : w.game.RoomsLock = false) (hvalid : ValidPointers w) (k : String) (hk : k ≠ r) :
    mapGet (joinWorld w log r cl).game.Rooms k = mapGet w.game.Rooms k := by
  have hfree1 : ({ w with env := log } : World Log).game.RoomsLock = false := hfree
  have hvalid1 : ValidPointers ({ w with env := log } : World Log) := hvalid
  rcases OpenRoom_join_cases _ r cl hfree1 hvalid1 with ⟨_, h⟩ | ⟨a, room, hget, _, h⟩
  · simp only [joinWorld, h]
    exact mapGet_mapSet_other _ _ _ _ hk
  · simp only [joinWorld, h]

/-! ## Joining -/

/-- C2: a session that completes onboarding with room name `r` and client `client`
leaves under `r` the client list that was there before (empty when `r` was absent)
followed by `client`, and no room loses a client; from the empty registry, a
session answering `lobby` / `alice` and then one answering `lobby` / `bob` leave
under `lobby` exactly the nicknames `alice`, `bob` in that order. -/
theorem join_appends_in_order (n : Nat) (w : World Log) (c : Conn)
    (hfree : w.game.RoomsLock = false) (hvalid : ValidPointers w)
    (w1 : World Log) (s : Session) (r : String) (client : Client) (e : Exit)
    (hjoin : newClient n w c = NewClient.opened w1 s r client e) :
    (clientsOf w1 r = clientsOf w r ++ [client] ∧
      (∀ k, ∃ t, clientsOf w1 k = clientsOf w k ++ t)) ∧
    (∀ (port : Int) (cA cB : Conn),
      cA.reads 0 = ReadResult.line "lobby" → cA.reads 1 = ReadResult.line "alice" →
      cB.reads 0 = ReadResult.line "lobby" → cB.reads 1 = ReadResult.line "bob" →
      ∃ wA wB sA sB clA clB,
        newClient 1 (World.start port) cA = NewClient.opened wA sA "lobby" clA Exit.returned ∧
        newClient 1 wA cB = NewClient.opened wB sB "lobby" clB Exit.returned ∧
        (clientsOf wB "lobby").map Client.Nickname = ["alice", "bob"]) := by
  constructor
  · rcases newClient_cases n w c hfree hvalid with ⟨log1, _, h⟩ | ⟨k, log1, _, _, _, h⟩
    · rw [h] at hjoin
      exact absurd hjoin (by simp)
    · rw [h] at hjoin
      simp only [NewClient.opened.injEq] at hjoin
      obtain ⟨hw, _, hr, hc, _⟩ := hjoin
      subst hw hr hc
      exact ⟨joinWorld_clients w log1 _ _ hfree hvalid,
        fun k => joinWorld_keeps w log1 _ _ hfree hvalid k⟩
  · intro port cA cB hA0 hA1 hB0 hB1
    have hlobby : TrimSpace "lobby" = "lobby" := by decide
    have hne : TrimSpace "lobby" ≠ "" := by decide
    have hansA0 : answer cA 0 = "lobby" := by simp [answer, hA0]
    have hansA1 : answer cA 1 = "alice" := by simp [answer, hA1]
    have hansB0 : answer cB 0 = "lobby" := by simp [answer, hB0]
    have hansB1 : answer cB 1 = "bob" := by simp [answer, hB1]
    have hfree0 : (World.start port).game.RoomsLock = false := rfl
    have hvalid0 := ValidPointers_start port
    rcases newClient_cases 1 (World.start port) cA hfree0 hvalid0 with
      ⟨_, hall, _⟩ | ⟨k, logA, hk, _, _, hA⟩
    · have := hall 0 (by omega)
      rw [hansA0] at this
      exact absurd this hne
    have hk0 : k = 0 := by omega
    subst hk0
    rw [hansA0, hlobby] at hA
    have hfreeA := joinWorld_free (World.start port) logA "lobby" (sessionClient cA (0 + 1))
      hfree0 hvalid0
    have hvalidA := joinWorld_valid (World.start port) logA "lobby" (sessionClient cA (0 + 1))
      hfree0 hvalid0
    rcases newClient_cases 1 _ cB hfreeA hvalidA with ⟨_, hall, _⟩ | ⟨k, logB, hk, _, _, hB⟩
    · have := hall 0 (by omega)
      rw [hansB0] at this
      exact absurd this hne
    have hk0 : k = 0 := by omega
    subst hk0
    rw [hansB0, hlobby] at hB
    refine ⟨_, _, _, _, _, _, hA, hB, ?_⟩
    rw [joinWorld_clients _ logB _ _ hfreeA hvalidA,
      joinWorld_clients _ logA _ _ hfree0 hvalid0]
    simp [clientsOf, roomAt, World.start, mapGet, sessionClient, hansA1, hansB1]

/-- The witness of C2: the session of `connAlice` on the empty registry. -/
theorem join_appends_in_order_witness :
    clientsOf (joinWorld (World.start 6000) [] "lobby" (sessionClient connAlice 1)) "lobby" =
      clientsOf (World.start 6000) "lobby" ++ [sessionClient connAlice 1] :=
  (join_appends_in_order 1 (World.start 6000) connAlice rfl (ValidPointers_start 6000)
    (joinWorld (World.start 6000) [] "lobby" (sessionClient connAlice 1))
    (afterPrompt (afterPrompt Session.fresh "Room") "Nickname") "lobby"
    (sessionClient connAlice 1) Exit.returned rfl).1.1

/-! ## The room name -/

/-- C3: a line read at the room prompt (every earlier read having been rejected)
whose trimmed text is not empty ends the room-name loop on that read, and
`OpenRoom` is called with exactly the trimmed text, which is a key of the registry
afterwards; `"  lobby  "` gives the key `"lobby"`, and white space around a line
does not change the key. -/
theorem room_key_is_trimmed_input (n k : Nat) (w : World Log) (c : Conn) (text : String)
    (hfree : w.game.RoomsLock = false) (hvalid : ValidPointers w) (hk : k < n)
    (hskip : ∀ i, i < k → TrimSpace (answer c i) = "")
    (hread : c.reads k = ReadResult.line text) (hgood : TrimSpace text ≠ "") :
    (∃ log1, roomLoop c n Session.fresh w.env =
      RoomLoop.left (TrimSpace text) (afterPrompt (afterRetries Session.fresh k) "Room") log1 ∧
      (afterPrompt (afterRetries Session.fresh k) "Room").reads = k + 1) ∧
    (∃ log1, newClient n w c = NewClient.opened
        (joinWorld w log1 (TrimSpace text) (sessionClient c (k + 1)))
        (afterPrompt (afterPrompt (afterRetries Session.fresh k) "Room") "Nickname")
        (TrimSpace text) (sessionClient c (k + 1)) Exit.returned ∧
      (joinWorld w log1 (TrimSpace text) (sessionClient c (k + 1))).game =
        (OpenRoom { w with env := log1 } (TrimSpace text)
          (joinMutator (sessionClient c (k + 1)))).1.game ∧
      (joinWorld w log1 (TrimSpace text) (sessionClient c (k + 1))).heap =
        (OpenRoom { w with env := log1 } (TrimSpace text)
          (joinMutator (sessionClient c (k + 1)))).1.heap ∧
      ∃ a, mapGet (joinWorld w log1 (TrimSpace text) (sessionClient c (k + 1))).game.Rooms
        (TrimSpace text) = some a) ∧
    TrimSpace "  lobby  " = "lobby" ∧
    (∀ pre post : String, (∀ x, x ∈ pre.data → isSpace x = true) →
      (∀ x, x ∈ post.data → isSpace x = true) →
      TrimSpace (pre ++ text ++ post) = TrimSpace text) := by
  have hans : answer c k = text := by simp [answer, hread]
  have h0 : ∀ i, Session.fresh.reads + i = i := fun i => by simp [Session.fresh]
  refine ⟨?_, ?_, by decide, fun pre post hpre hpost => TrimSpace_pad pre text post hpre hpost⟩
  · obtain ⟨m, hm⟩ : ∃ m, n = k + (m + 1) := ⟨n - k - 1, by omega⟩
    obtain ⟨log1, h1⟩ := roomLoop_left c k m Session.fresh w.env
      (fun i hi => by rw [h0]; exact hskip i hi) (by rw [h0, hans]; exact hgood)
    rw [h0, hans, ← hm] at h1
    exact ⟨log1, h1, by simp [afterPrompt, afterRetries, Session.fresh]⟩
  · rcases newClient_cases n w c hfree hvalid with ⟨_, hall, _⟩ | ⟨j, log1, hj, hmin, hjgood, h⟩
    · have := hall k hk
      rw [hans] at this
      exact absurd this hgood
    · have hjk : j = k := by
        rcases Nat.lt_trichotomy j k with hlt | heq | hgt
        · exact absurd (hskip j hlt) hjgood
        · exact heq
        · have := hmin k hgt
          rw [hans] at this
          exact absurd this hgood
      subst hjk
      rw [hans] at h
      exact ⟨log1, h, rfl, rfl, joinWorld_present w log1 _ _ hfree hvalid⟩

/-- The witness of C3: the peer of `connAlice` sending the room name with white space around it. -/
theorem room_key_is_trimmed_input_witness :
    ∃ log1, newClient 1 (World.start 6000)
        (Conn.scripted 1 (ReadResult.line "  lobby  ") (ReadResult.line "alice")) =
      NewClient.opened
        (joinWorld (World.start 6000) log1 (TrimSpace "  lobby  ")
          (sessionClient (Conn.scripted 1 (ReadResult.line "  lobby  ")
            (ReadResult.line "alice")) (0 + 1)))
        (afterPrompt (afterPrompt (afterRetries Session.fresh 0) "Room") "Nickname")
        (TrimSpace "  lobby  ")
        (sessionClient (Conn.scripted 1 (ReadResult.line "  lobby  ")
          (ReadResult.line "alice")) (0 + 1)) Exit.returned :=
  (room_key_is_trimmed_input 1 0 (World.start 6000)
    (Conn.scripted 1 (ReadResult.line "  lobby  ") (ReadResult.line "alice")) "  lobby  "
    rfl (ValidPointers_start 6000) (by decide) (fun i hi => absurd hi (Nat.not_lt_zero i))
    rfl (by decide)).2.1.imp (fun _ h => h.1)

/-- C4: a pass of the room-name loop whose read trims to nothing (as `""` and
`"   "` do) writes `Invalid room name` and a newline, flushes, and the loop goes
on with a pass that starts by writing the prompt `Room: ` again; the name a
session passes to `OpenRoom` is never the empty string, and a registry without
the empty key has none after the session. -/
theorem empty_room_name_rejected (n : Nat) (w : World Log) (c : Conn)
    (hfree : w.game.RoomsLock = false) (hvalid : ValidPointers w) :
    (TrimSpace "" = "" ∧ TrimSpace "   " = "") ∧
    (∀ (s : Session) (log : Log), TrimSpace (answer c s.reads) = "" →
      ∃ log1, roomLoopBody c s log = (none, afterRetries s 1, log1) ∧
        (afterRetries s 1).calls = s.calls ++
          [Call.WriteString "Room: ", Call.Flush, Call.ReadLine,
           Call.WriteString "Invalid room name\n", Call.Flush] ∧
        (∀ m, roomLoop c (m + 1) s log = roomLoop c m (afterRetries s 1) log1) ∧
        (∀ log2, ∃ rest, (roomLoopBody c (afterRetries s 1) log2).2.1.calls =
          (afterRetries s 1).calls ++ Call.WriteString "Room: " :: rest)) ∧
    (∀ (w1 : World Log) (s : Session) (r : String) (client : Client) (e : Exit),
      newClient n w c = NewClient.opened w1 s r client e →
        r ≠ "" ∧ (mapGet w.game.Rooms "" = none → mapGet w1.game.Rooms "" = none)) := by
  refine ⟨⟨by decide, by decide⟩, ?_, ?_⟩
  · intro s log hempty
    obtain ⟨log1, h1⟩ := roomLoopBody_retry c s log hempty
    refine ⟨log1, h1, by simp [afterRetries, retryCalls], ?_, ?_⟩
    · intro m
      rw [roomLoop, h1]
    · intro log2
      by_cases hnext : TrimSpace (answer c (afterRetries s 1).reads) = ""
      · obtain ⟨log3, h3⟩ := roomLoopBody_retry c (afterRetries s 1) log2 hnext
        rw [h3]
        exact ⟨[Call.Flush, Call.ReadLine, Call.WriteString "Invalid room name\n", Call.Flush],
          by simp [afterRetries, retryCalls]⟩
      · obtain ⟨log3, h3⟩ := roomLoopBody_break c (afterRetries s 1) log2 hnext
        rw [h3]
        exact ⟨[Call.Flush, Call.ReadLine], by simp [afterPrompt]⟩
  · intro w1 s r client e hjoin
    rcases newClient_cases n w c hfree hvalid with ⟨log1, _, h⟩ | ⟨k, log1, _, _, hgood, h⟩
    · rw [h] at hjoin
      exact absurd hjoin (by simp)
    · rw [h] at hjoin
      simp only [NewClient.opened.injEq] at hjoin
      obtain ⟨hw, _, hr, _, _⟩ := hjoin
      subst hw hr
      refine ⟨hgood, fun hnone => ?_⟩
      rw [joinWorld_other w log1 _ _ hfree hvalid "" (fun h => hgood h.symm)]
      exact hnone

/-- The witness of C4: on `connBroken` the first pass is a retry. -/
theorem empty_room_name_rejected_witness :
    ∃ log1, roomLoopBody connBroken Session.fresh [] =
      (none, afterRetries Session.fresh 1, log1) :=
  ((empty_room_name_rejected 1 (World.start 6000) connBroken rfl
    (ValidPointers_start 6000)).2.1 Session.fresh [] (by decide)).imp (fun _ h => h.1)

/-! ## The nickname -/

theorem count_nickname_retryCalls (k : Nat) :
    List.count (Call.WriteString "Nickname: ") (List.replicate k retryCalls).flatten = 0 := by
  induction k with
  | zero => simp
  | succ k ih =>
    rw [List.replicate_succ, List.flatten_cons, List.count_append, ih]
    decide

/-- C9: once the room-name loop has been left (on read `k`), the session writes
the prompt `Nickname: ` exactly once, reads once, and joins with a client whose
nickname is exactly what that read yielded: the text of the line as it is, or
the empty string for a failed read. -/
theorem nickname_accepted_unconditionally (n k : Nat) (w : World Log) (c : Conn)
    (hfree : w.game.RoomsLock = false) (hvalid : ValidPointers w) (hk : k < n)
    (hskip : ∀ i, i < k → TrimSpace (answer c i) = "")
    (hgood : TrimSpace (answer c k) ≠ "") :
    ∃ (w1 : World Log) (s : Session) (client : Client),
      newClient n w c = NewClient.opened w1 s (TrimSpace (answer c k)) client Exit.returned ∧
      (∀ text, c.reads (k + 1) = ReadResult.line text → client.Nickname = text) ∧
      (∀ err, c.reads (k + 1) = ReadResult.failure err → client.Nickname = "") ∧
      List.count (Call.WriteString "Nickname: ") s.calls = 1 ∧
      s.calls = (afterPrompt (afterRetries Session.fresh k) "Room").calls ++
        [Call.WriteString "Nickname: ", Call.Flush, Call.ReadLine] ∧
      s.reads = k + 2 ∧
      clientsOf w1 (TrimSpace (answer c k)) = clientsOf w (TrimSpace (answer c k)) ++ [client] := by
  rcases newClient_cases n w c hfree hvalid with ⟨_, hall, _⟩ | ⟨j, log1, hj, hmin, hjgood, h⟩
  · exact absurd (hall k hk) hgood
  · have hjk : j = k := by
      rcases Nat.lt_trichotomy j k with hlt | heq | hgt
      · exact absurd (hskip j hlt) hjgood
      · exact heq
      · exact absurd (hmin k hgt) hgood
    subst hjk
    refine ⟨_, _, _, h, ?_, ?_, ?_, ?_, ?_, joinWorld_clients w log1 _ _ hfree hvalid⟩
    · intro text hread
      simp [sessionClient, answer, hread]
    · intro err hread
      simp [sessionClient, answer, hread]
    · simp only [afterPrompt, afterRetries, Session.fresh, List.nil_append, List.count_append,
        count_nickname_retryCalls]
      decide
    · simp [afterPrompt]
    · simp [afterPrompt, afterRetries, Session.fresh]

/-- The witness of C9: the session of `connAlice`. -/
theorem nickname_accepted_unconditionally_witness :
    ∃ (w1 : World Log) (s : Session) (client : Client),
      newClient 1 (World.start 6000) connAlice =
        NewClient.opened w1 s (TrimSpace (answer connAlice 0)) client Exit.returned ∧
      List.count (Call.WriteString "Nickname: ") s.calls = 1 := by
  obtain ⟨w1, s, client, h1, _, _, h4, _⟩ :=
    nickname_accepted_unconditionally 1 0 (World.start 6000) connAlice rfl
      (ValidPointers_start 6000) (by decide) (fun i hi => absurd hi (Nat.not_lt_zero i))
      (by decide)
  exact ⟨w1, s, client, h1, h4⟩

/-! ## Failed reads -/

/-- C10: `prompt` returns the empty string when its read fails, so in the
room-name loop a failed read takes the retry path; when every read fails the
session is still in the room-name loop after any number of passes, with the
registry untouched; and a session gets to `OpenRoom` exactly when some read
yields a text whose trimmed form is not empty. -/
theorem failed_reads_retry_forever (w : World Log) (c : Conn)
    (hfree : w.game.RoomsLock = false) (hvalid : ValidPointers w) :
    (∀ (s : Session) (log : Log) (q err : String),
      c.reads s.reads = ReadResult.failure err → (prompt c s log q).1 = "") ∧
    (∀ (s : Session) (log : Log) (err : String),
      c.reads s.reads = ReadResult.failure err →
      ∃ log1, roomLoopBody c s log = (none, afterRetries s 1, log1) ∧
        (afterRetries s 1).calls = s.calls ++
          [Call.WriteString "Room: ", Call.Flush, Call.ReadLine,
           Call.WriteString "Invalid room name\n", Call.Flush]) ∧
    ((∀ i, ∃ err, c.reads i = ReadResult.failure err) →
      ∀ n, ∃ log1, newClient n w c =
        NewClient.awaitingRoomName { w with env := log1 } (afterRetries Session.fresh n)) ∧
    ((∃ n w1 s r client e, newClient n w c = NewClient.opened w1 s r client e) ↔
      ∃ i, TrimSpace (answer c i) ≠ "") := by
  have hfail : ∀ i err, c.reads i = ReadResult.failure err → TrimSpace (answer c i) = "" := by
    intro i err h
    simp only [answer, h]
    decide
  refine ⟨?_, ?_, ?_, ?_⟩
  · intro s log q err h
    rw [prompt_answer]
    simp [answer, h]
  · intro s log err h
    obtain ⟨log1, h1⟩ := roomLoopBody_retry c s log (hfail _ err h)
    exact ⟨log1, h1, by simp [afterRetries, retryCalls]⟩
  · intro hall n
    rcases newClient_cases n w c hfree hvalid with ⟨log1, _, h⟩ | ⟨k, _, _, _, hgood, _⟩
    · exact ⟨log1, h⟩
    · obtain ⟨err, herr⟩ := hall k
      exact absurd (hfail k err herr) hgood
  · constructor
    · rintro ⟨n, w1, s, r, client, e, h⟩
      rcases newClient_cases n w c hfree hvalid with ⟨_, _, h2⟩ | ⟨k, _, _, _, hgood, _⟩
      · rw [h2] at h
        exact absurd h (by simp)
      · exact ⟨k, hgood⟩
    · rintro ⟨i, hi⟩
      rcases newClient_cases (i + 1) w c hfree hvalid with ⟨_, hall, _⟩ | ⟨k, log1, _, _, _, h⟩
      · exact absurd (hall i (by omega)) hi
      · exact ⟨i + 1, _, _, _, _, _, h⟩

/-- The witness of C10: on `connBroken` the session is still awaiting a room name after 5 passes. -/
theorem failed_reads_retry_forever_witness :
    ∃ log1, newClient 5 (World.start 6000) connBroken =
      NewClient.awaitingRoomName { World.start 6000 with env := log1 }
        (afterRetries Session.fresh 5) :=
  (failed_reads_retry_forever (World.start 6000) connBroken rfl (ValidPointers_start 6000)).2.2.1
    (fun _ => ⟨"EOF", rfl⟩) 5

/-! ## `Atoi` on decimal numerals -/

theorem le_decimalValue (cs : List Char) : ∀ n, n ≤ decimalValue cs n := by
  induction cs with
  | nil => exact fun n => Nat.le_refl n
  | cons c rest ih =>
    intro n
    have h := ih (n * 10 + (c.toNat - 48))
    simp only [decimalValue, List.foldl_cons] at h ⊢
    omega

theorem parseDigits_value (cs : List Char) :
    ∀ n, AllDigits cs → decimalValue cs n < 2 ^ 64 →
      parseDigits cs n = Except.ok (decimalValue cs n) := by
  induction cs with
  | nil => exact fun n _ _ => rfl
  | cons c rest ih =>
    intro n hd hv
    have hc := hd c (List.mem_cons_self c rest)
    have hrest : AllDigits rest := fun x hx => hd x (List.mem_cons_of_mem c hx)
    have hstep : decimalValue (c :: rest) n = decimalValue rest (n * 10 + (c.toNat - 48)) := rfl
    rw [hstep] at hv ⊢
    have hle := le_decimalValue rest (n * 10 + (c.toNat - 48))
    have hdig : digitVal c = some (c.toNat - 48) := by simp [digitVal, hc]
    have h1 : ¬ n ≥ (2 ^ 64 - 1) / 10 + 1 := by omega
    have h2 : ¬ n * 10 + (c.toNat - 48) > 2 ^ 64 - 1 := by omega
    rw [parseDigits, hdig]
    simp only [h1, h2, if_false]
    exact ih _ hrest hv

/-- A non-empty string of decimal digits that denotes a number below `2 ^ 63`
parses to that number. -/
theorem Atoi_digits (cs : List Char) (hne : cs ≠ []) (hd : AllDigits cs)
    (hv : decimalValue cs 0 < 2 ^ 63) :
    Atoi (String.mk cs) = Except.ok (decimalValue cs 0 : Int) := by
  cases cs with
  | nil => exact absurd rfl hne
  | cons c rest =>
    have hc := hd c (List.mem_cons_self c rest)
    have h43 : (c.toNat == 43) = false := by
      simp only [beq_eq_false_iff_ne, ne_eq]; omega
    have h45 : (c.toNat == 45) = false := by
      simp only [beq_eq_false_iff_ne, ne_eq]; omega
    have hp : parseUint (c :: rest) = Except.ok (decimalValue (c :: rest) 0) :=
      parseDigits_value (c :: rest) 0 hd (by omega)
    have hnot : ¬ decimalValue (c :: rest) 0 ≥ 2 ^ 63 := by omega
    simp only [Atoi, parseInt, h43, h45, Bool.or_self, Bool.false_eq_true, if_false, hp]
    simp only [Nat.reducePow] at hv
    simp [hv]

/-! ## Start-up -/

/-- C7: with `PORT` unset or empty `main` calls `Play` on a game with port 6000;
with `PORT` a string that `Atoi` parses as `n` it calls `Play` with port `n`, and
`Play` listens on that port; with any `PORT` that `Atoi` rejects (such as
`notanumber`) start-up ends in `log.Fatalf` with exit status 1, `Play` is not
called and nothing listens; a `PORT` of decimal digits denoting a number below
`2 ^ 63` is parsed as that number. -/
theorem port_configuration (env : String → Option String) :
    ((env "PORT" = none ∨ env "PORT" = some "") →
      main env = Startup.play { Rooms := [], RoomsLock := false, Port := 6000 } ∧
      ∀ listenErr, Effect.listen "tcp" ":6000" ∈ startup env listenErr) ∧
    (∀ (s : String) (n : Int), env "PORT" = some s → s ≠ "" → Atoi s = Except.ok n →
      main env = Startup.play { Rooms := [], RoomsLock := false, Port := n } ∧
      ∀ listenErr, Effect.listen "tcp" (":" ++ toString n) ∈ startup env listenErr) ∧
    (∀ (s : String) (e : NumError), env "PORT" = some s → s ≠ "" → Atoi s = Except.error e →
      main env = Startup.fatal
        [Effect.log { format := "An error occured parsing %s to integer: %s\n",
                      args := [LogArg.str s, LogArg.numError e] }, Effect.exit 1] ∧
      ∀ listenErr network address,
        Effect.listen network address ∉ startup env listenErr) ∧
    (∀ cs : List Char, cs ≠ [] → AllDigits cs → decimalValue cs 0 < 2 ^ 63 →
      env "PORT" = some (String.mk cs) →
      main env = Startup.play
        { Rooms := [], RoomsLock := false, Port := (decimalValue cs 0 : Int) }) ∧
    Atoi "notanumber" = Except.error NumError.ErrSyntax := by
  have h6000 : Atoi "6000" = Except.ok 6000 := by rfl
  refine ⟨?_, ?_, ?_, ?_, by rfl⟩
  · intro h
    have hport : Getenv env "PORT" = "" := by
      rcases h with h | h <;> simp [Getenv, h]
    have hmain : main env = Startup.play { Rooms := [], RoomsLock := false, Port := 6000 } := by
      simp [main, hport, h6000]
    refine ⟨hmain, fun listenErr => ?_⟩
    simp only [startup, hmain, Play]
    have : (":" ++ toString (6000 : Int)) = ":6000" := by decide
    simp [this]
  · intro s n hs hne hatoi
    have hport : Getenv env "PORT" = s := by simp [Getenv, hs]
    have hmain : main env = Startup.play { Rooms := [], RoomsLock := false, Port := n } := by
      simp [main, hport, hne, hatoi]
    refine ⟨hmain, fun listenErr => ?_⟩
    simp [startup, hmain, Play]
  · intro s e hs hne hatoi
    have hport : Getenv env "PORT" = s := by simp [Getenv, hs]
    have hmain : main env = Startup.fatal
        [Effect.log { format := "An error occured parsing %s to integer: %s\n",
                      args := [LogArg.str s, LogArg.numError e] }, Effect.exit 1] := by
      simp [main, hport, hne, hatoi, Fatalf]
    refine ⟨hmain, fun listenErr network address => ?_⟩
    simp [startup, hmain]
  · intro cs hne hd hv hs
    have hport : Getenv env "PORT" = String.mk cs := by simp [Getenv, hs]
    have hne1 : String.mk cs ≠ "" := by
      intro h
      apply hne
      have := congrArg String.data h
      simpa using this
    simp [main, hport, hne1, Atoi_digits cs hne hd hv]

/-- The witness of C7: start-up with `PORT=notanumber`. -/
theorem port_configuration_witness :
    main (fun k => if k = "PORT" then some "notanumber" else none) = Startup.fatal
      [Effect.log { format := "An error occured parsing %s to integer: %s\n",
                    args := [LogArg.str "notanumber", LogArg.numError NumError.ErrSyntax] },
       Effect.exit 1] :=
  ((port_configuration (fun k => if k = "PORT" then some "notanumber" else none)).2.2.1
    "notanumber" NumError.ErrSyntax (by decide) (by decide) (by rfl)).1

/-! ## Room names -/

theorem OpenRoom_join_names (w : World Log) (r : String) (c : Client)
    (hfree : w.game.RoomsLock = false) (hvalid : ValidPointers w) (hnames : NamesMatchKeys w) :
    NamesMatchKeys (OpenRoom w r (joinMutator c)).1 := by
  rcases OpenRoom_join_cases w r c hfree hvalid with ⟨hget, h⟩ | ⟨a, room, hget, hroom, h⟩
  · rw [h]
    intro k b hk
    simp only at hk ⊢
    by_cases hkr : k = r
    · subst hkr
      rw [mapGet_mapSet_same] at hk
      simp only [Option.some.injEq] at hk
      subst hk
      exact ⟨{ Name := k, Clients := [c] }, by simp, rfl⟩
    · rw [mapGet_mapSet_other _ _ _ _ hkr] at hk
      obtain ⟨room1, h1, h2⟩ := hnames k b hk
      have hlt : b < w.heap.length := hvalid k b hk
      exact ⟨room1, by rw [List.getElem?_append_left hlt]; exact h1, h2⟩
  · rw [h]
    intro k b hk
    simp only at hk ⊢
    obtain ⟨room1, h1, h2⟩ := hnames k b hk
    by_cases hba : a = b
    · subst hba
      have hlt : a < w.heap.length := hvalid r a hget
      rw [hroom] at h1
      simp only [Option.some.injEq] at h1
      subst h1
      exact ⟨{ room with Clients := room.Clients ++ [c] }, by simp [hlt], h2⟩
    · exact ⟨room1, by rw [List.getElem?_set_ne hba]; exact h1, h2⟩

theorem OpenRoom_join_keeps_name (w : World Log) (r : String) (c : Client)
    (hfree : w.game.RoomsLock = false) (hvalid : ValidPointers w) (b : Nat) (room : Room)
    (hb : w.heap[b]? = some room) :
    ∃ room1, (OpenRoom w r (joinMutator c)).1.heap[b]? = some room1 ∧
      room1.Name = room.Name := by
  have hlt : b < w.heap.length := by
    rcases Nat.lt_or_ge b w.heap.length with h | h
    · exact h
    · rw [List.getElem?_eq_none h] at hb
      exact absurd hb (by simp)
  rcases OpenRoom_join_cases w r c hfree hvalid with ⟨hget, h⟩ | ⟨a, room0, hget, hroom, h⟩
  · rw [h]
    exact ⟨room, by simp only; rw [List.getElem?_append_left hlt]; exact hb, rfl⟩
  · rw [h]
    by_cases hba : a = b
    · subst hba
      rw [hroom] at hb
      simp only [Option.some.injEq] at hb
      subst hb
      exact ⟨{ room0 with Clients := room0.Clients ++ [c] }, by simp [hlt], rfl⟩
    · exact ⟨room, by simp only; rw [List.getElem?_set_ne hba]; exact hb, rfl⟩

theorem OpenRoom_join_keeps_key (w : World Log) (r : String) (c : Client)
    (hfree : w.game.RoomsLock = false) (hvalid : ValidPointers w) (k : String) (a : Nat)
    (hk : mapGet w.game.Rooms k = some a) :
    mapGet (OpenRoom w r (joinMutator c)).1.game.Rooms k = some a := by
  rcases OpenRoom_join_cases w r c hfree hvalid with ⟨hget, h⟩ | ⟨a0, room0, hget, hroom, h⟩
  · rw [h]
    have hkr : k ≠ r := by
      intro e
      subst e
      rw [hget] at hk
      exact absurd hk (by simp)
    simp only
    rw [mapGet_mapSet_other _ _ _ _ hkr]
    exact hk
  · rw [h]
    exact hk

theorem joinAll_invariant (joins : List (String × Client)) :
    ∀ w : World Log, w.game.RoomsLock = false → ValidPointers w → NamesMatchKeys w →
      (joinAll w joins).game.RoomsLock = false ∧ ValidPointers (joinAll w joins) ∧
      NamesMatchKeys (joinAll w joins) ∧
      (∀ (b : Nat) (room : Room), w.heap[b]? = some room →
        ∃ room1, (joinAll w joins).heap[b]? = some room1 ∧ room1.Name = room.Name) ∧
      (∀ (k : String) (a : Nat), mapGet w.game.Rooms k = some a →
        mapGet (joinAll w joins).game.Rooms k = some a) := by
  induction joins with
  | nil =>
    intro w hfree hvalid hnames
    exact ⟨hfree, hvalid, hnames, fun b room hb => ⟨room, hb, rfl⟩, fun k a hk => hk⟩
  | cons j rest ih =>
    intro w hfree hvalid hnames
    have h1 := (OpenRoom_join_exit w j.1 j.2 hfree hvalid).2.1
    have h2 := OpenRoom_join_valid w j.1 j.2 hfree hvalid
    have h3 := OpenRoom_join_names w j.1 j.2 hfree hvalid hnames
    obtain ⟨i1, i2, i3, i4, i5⟩ := ih _ h1 h2 h3
    refine ⟨i1, i2, i3, fun b room hb => ?_, fun k a hk => ?_⟩
    · obtain ⟨room1, hb1, hn1⟩ := OpenRoom_join_keeps_name w j.1 j.2 hfree hvalid b room hb
      obtain ⟨room2, hb2, hn2⟩ := i4 b room1 hb1
      exact ⟨room2, hb2, hn2.trans hn1⟩
    · exact i5 k a (OpenRoom_join_keeps_key w j.1 j.2 hfree hvalid k a hk)

theorem NamesMatchKeys_start (port : Int) : NamesMatchKeys (World.start port) := by
  intro k a h
  simp [World.start, mapGet] at h

/-- C8: in every registry reached from the empty one by onboarding joins, every
key holds the address of a room whose `Name` is that key; later joins leave the
key at that address, and no join changes the `Name` of a room that exists. -/
theorem room_name_matches_key (port : Int) (joins later : List (String × Client)) :
    NamesMatchKeys (joinAll (World.start port) joins) ∧
    (∀ (k : String) (a : Nat),
      mapGet (joinAll (World.start port) joins).game.Rooms k = some a →
      mapGet (joinAll (joinAll (World.start port) joins) later).game.Rooms k = some a) ∧
    (∀ (b : Nat) (room : Room), (joinAll (World.start port) joins).heap[b]? = some room →
      ∃ room1, (joinAll (joinAll (World.start port) joins) later).heap[b]? = some room1 ∧
        room1.Name = room.Name) := by
  obtain ⟨h1, h2, h3, _, _⟩ :=
    joinAll_invariant joins (World.start port) rfl (ValidPointers_start port)
      (NamesMatchKeys_start port)
  obtain ⟨_, _, _, k4, k5⟩ := joinAll_invariant later _ h1 h2 h3
  exact ⟨h3, k5, k4⟩

/-! ## The mutex -/

theorem lookupOrCreate_facts {σ : Type} (w : World σ) (name : String) :
    (lookupOrCreate w name).2.game.RoomsLock = w.game.RoomsLock ∧
    (lookupOrCreate w name).2.env = w.env ∧
    (ValidPointers w → (lookupOrCreate w name).1 < (lookupOrCreate w name).2.heap.length) := by
  unfold lookupOrCreate
  cases hget : mapGet w.game.Rooms name with
  | none =>
    refine ⟨rfl, rfl, fun _ => ?_⟩
    simp [createRoom]
  | some a => exact ⟨rfl, rfl, fun hv => hv name a hget⟩

/-- `OpenRoom` on an absent name, in full: the exit and the mutex follow the one
call of the callback. -/
theorem OpenRoom_absent {σ : Type} (w : World σ) (name : String) (f : Mutator σ)
    (hfree : w.game.RoomsLock = false) (hget : mapGet w.game.Rooms name = none) :
    OpenRoom w name f =
      ({ game := { Rooms := mapSet w.game.Rooms name w.heap.length,
                   RoomsLock := (f w.heap.length (NewRoom name) w.env).panicked,
                   Port := w.game.Port },
         heap := w.heap ++ [(f w.heap.length (NewRoom name) w.env).room],
         env := (f w.heap.length (NewRoom name) w.env).env },
       if (f w.heap.length (NewRoom name) w.env).panicked then Exit.panicked
       else Exit.returned) := by
  obtain ⟨⟨rooms, lock, port⟩, heap, env⟩ := w
  simp only at hfree hget
  subst hfree
  cases hp : (f heap.length (NewRoom name) env).panicked <;>
    simp [OpenRoom, lockRooms, lookupOrCreate, hget, createRoom, callMutator, unlockRooms, hp]

/-- `OpenRoom` on a present name whose pointer is the address of a room, in full. -/
theorem OpenRoom_present {σ : Type} (w : World σ) (name : String) (f : Mutator σ) (a : Nat)
    (room : Room) (hfree : w.game.RoomsLock = false)
    (hget : mapGet w.game.Rooms name = some a) (hroom : w.heap[a]? = some room) :
    OpenRoom w name f =
      ({ game := { Rooms := w.game.Rooms, RoomsLock := (f a room w.env).panicked,
                   Port := w.game.Port },
         heap := w.heap.set a (f a room w.env).room,
         env := (f a room w.env).env },
       if (f a room w.env).panicked then Exit.panicked else Exit.returned) := by
  obtain ⟨⟨rooms, lock, port⟩, heap, env⟩ := w
  simp only at hfree hget hroom
  subst hfree
  cases hp : (f a room env).panicked <;>
    simp [OpenRoom, lockRooms, lookupOrCreate, hget, callMutator, hroom, unlockRooms, hp]

/-- `OpenRoom` on a present name whose pointer is not the address of a room: the
callback dereferences it and panics. -/
theorem OpenRoom_invalid {σ : Type} (w : World σ) (name : String) (f : Mutator σ) (a : Nat)
    (hfree : w.game.RoomsLock = false)
    (hget : mapGet w.game.Rooms name = some a) (hroom : w.heap[a]? = none) :
    OpenRoom w name f = (lockRooms w, Exit.panicked) := by
  obtain ⟨⟨rooms, lock, port⟩, heap, env⟩ := w
  simp only at hfree hget hroom
  subst hfree
  simp [OpenRoom, lockRooms, lookupOrCreate, hget, callMutator, hroom]

/-- C5, as the code has it: with the mutex free at entry, `OpenRoom` never waits.
If the one call of the callback (on the new room when the name is absent, on the
stored room otherwise) returns, `OpenRoom` returns and the mutex is free
afterwards; if that call panics, the panic leaves `OpenRoom` with the mutex still
held, as `Unlock` is not deferred. So `OpenRoom` returns exactly when the mutex
is free afterwards. -/
theorem OpenRoom_releases_lock_on_return {σ : Type} (w : World σ) (name : String)
    (f : Mutator σ) (hfree : w.game.RoomsLock = false) :
    (OpenRoom w name f).2 ≠ Exit.blocked ∧
    ((OpenRoom w name f).2 = Exit.returned ↔ (OpenRoom w name f).1.game.RoomsLock = false) ∧
    ((OpenRoom w name f).2 = Exit.panicked ↔ (OpenRoom w name f).1.game.RoomsLock = true) ∧
    (mapGet w.game.Rooms name = none →
      ((f w.heap.length (NewRoom name) w.env).panicked = false →
        (OpenRoom w name f).2 = Exit.returned ∧
        (OpenRoom w name f).1.game.RoomsLock = false) ∧
      ((f w.heap.length (NewRoom name) w.env).panicked = true →
        (OpenRoom w name f).2 = Exit.panicked ∧
        (OpenRoom w name f).1.game.RoomsLock = true)) ∧
    (∀ (a : Nat) (room : Room), mapGet w.game.Rooms name = some a → w.heap[a]? = some room →
      ((f a room w.env).panicked = false →
        (OpenRoom w name f).2 = Exit.returned ∧
        (OpenRoom w name f).1.game.RoomsLock = false) ∧
      ((f a room w.env).panicked = true →
        (OpenRoom w name f).2 = Exit.panicked ∧
        (OpenRoom w name f).1.game.RoomsLock = true)) ∧
    (∀ a : Nat, mapGet w.game.Rooms name = some a → w.heap[a]? = none →
      (OpenRoom w name f).2 = Exit.panicked ∧
      (OpenRoom w name f).1.game.RoomsLock = true) := by
  cases hget : mapGet w.game.Rooms name with
  | none =>
    rw [OpenRoom_absent w name f hfree hget]
    cases hp : (f w.heap.length (NewRoom name) w.env).panicked <;> simp
  | some a =>
    cases hroom : w.heap[a]? with
    | none =>
      rw [OpenRoom_invalid w name f a hfree hget hroom]
      refine ⟨by simp, by simp [lockRooms], by simp [lockRooms], by simp, ?_, ?_⟩
      · intro b room hb hr
        simp only [Option.some.injEq] at hb
        subst hb
        rw [hroom] at hr
        exact absurd hr (by simp)
      · intro b _ _
        exact ⟨rfl, rfl⟩
    | some room =>
      rw [OpenRoom_present w name f a room hfree hget hroom]
      have hsame : ∀ (b : Nat) (room1 : Room), some a = some b → w.heap[b]? = some room1 →
          b = a ∧ room1 = room := by
        intro b room1 hb hr
        simp only [Option.some.injEq] at hb
        subst hb
        rw [hroom] at hr
        simp only [Option.some.injEq] at hr
        exact ⟨rfl, hr.symm⟩
      cases hp : (f a room w.env).panicked
      · refine ⟨by simp, by simp, by simp, by simp, ?_, ?_⟩
        · intro b room1 hb hr
          obtain ⟨h1, h2⟩ := hsame b room1 hb hr
          subst h1 h2
          simp [hp]
        · intro b hb hr
          simp only [Option.some.injEq] at hb
          subst hb
          rw [hroom] at hr
          exact absurd hr (by simp)
      · refine ⟨by simp, by simp, by simp, by simp, ?_, ?_⟩
        · intro b room1 hb hr
          obtain ⟨h1, h2⟩ := hsame b room1 hb hr
          subst h1 h2
          simp [hp]
        · intro b hb hr
          simp only [Option.some.injEq] at hb
          subst hb
          rw [hroom] at hr
          exact absurd hr (by simp)

/-- The witness of the amended C5: a join on the empty registry returns with the mutex free. -/
theorem OpenRoom_releases_lock_on_return_witness :
    (OpenRoom (World.start 6000) "lobby" (joinMutator (sessionClient connAlice 1))).2 =
      Exit.returned ∧
    (OpenRoom (World.start 6000) "lobby"
      (joinMutator (sessionClient connAlice 1))).1.game.RoomsLock = false :=
  ((OpenRoom_releases_lock_on_return (World.start 6000) "lobby"
      (joinMutator (sessionClient connAlice 1)) rfl).2.2.2.1 rfl).1 rfl

/-- The counterexample to C5: a callback that panicks leaves `OpenRoom` with the
mutex held. -/
theorem OpenRoom_lock_held_after_panic :
    (OpenRoom ({ game := { Rooms := [], RoomsLock := false, Port := 6000 },
                 heap := [], env := () } : World Unit) "lobby" panicMutator).2 = Exit.panicked ∧
    ¬ (OpenRoom ({ game := { Rooms := [], RoomsLock := false, Port := 6000 },
                   heap := [], env := () } : World Unit) "lobby" panicMutator).1.game.RoomsLock
        = false := by
  decide

/-! ## Concurrent calls of `OpenRoom` -/

theorem Task.step_cases {σ : Type} (t t1 : Task σ) (w w1 : World σ)
    (h : t.step w = some (t1, w1)) :
    t1.name = t.name ∧ t1.f = t.f ∧
    ((t.pc = PC.atLock ∧ w.game.RoomsLock = false ∧ t1.pc = PC.atLookup ∧ w1 = lockRooms w) ∨
     (t.pc = PC.atLookup ∧ mapGet w.game.Rooms t.name = none ∧ t1.pc = PC.atCreate ∧ w1 = w) ∨
     (∃ a, t.pc = PC.atLookup ∧ mapGet w.game.Rooms t.name = some a ∧
        t1.pc = PC.atCall a ∧ w1 = w) ∨
     (t.pc = PC.atCreate ∧ t1.pc = PC.atCall w.heap.length ∧ w1 = (createRoom w t.name).2) ∨
     (∃ a, t.pc = PC.atCall a ∧ w.heap[a]? = none ∧ t1.pc = PC.panicked ∧ w1 = w) ∨
     (∃ a room, t.pc = PC.atCall a ∧ w.heap[a]? = some room ∧
        (t1.pc = PC.panicked ∨ t1.pc = PC.atUnlock) ∧
        w1 = { w with heap := w.heap.set a (t.f a room w.env).room,
                      env := (t.f a room w.env).env }) ∨
     (t.pc = PC.atUnlock ∧ t1.pc = PC.returned ∧ w1 = unlockRooms w)) := by
  unfold Task.step at h
  cases hpc : t.pc with
  | atLock =>
    rw [hpc] at h
    by_cases hl : w.game.RoomsLock = true
    · simp [hl] at h
    · simp only [hl, if_false, Option.some.injEq, Prod.mk.injEq, Bool.false_eq_true] at h
      obtain ⟨h1, h2⟩ := h
      subst h1 h2
      simp at hl
      exact ⟨rfl, rfl, Or.inl ⟨rfl, hl, rfl, rfl⟩⟩
  | atLookup =>
    rw [hpc] at h
    cases hget : mapGet w.game.Rooms t.name with
    | none =>
      simp only [hget, Option.some.injEq, Prod.mk.injEq] at h
      obtain ⟨h1, h2⟩ := h
      subst h1 h2
      exact ⟨rfl, rfl, Or.inr (Or.inl ⟨rfl, rfl, rfl, rfl⟩)⟩
    | some a =>
      simp only [hget, Option.some.injEq, Prod.mk.injEq] at h
      obtain ⟨h1, h2⟩ := h
      subst h1 h2
      exact ⟨rfl, rfl, Or.inr (Or.inr (Or.inl ⟨a, rfl, rfl, rfl, rfl⟩))⟩
  | atCreate =>
    rw [hpc] at h
    simp only [Option.some.injEq, Prod.mk.injEq] at h
    obtain ⟨h1, h2⟩ := h
    subst h1 h2
    exact ⟨rfl, rfl, Or.inr (Or.inr (Or.inr (Or.inl ⟨rfl, rfl, rfl⟩)))⟩
  | atCall a =>
    rw [hpc] at h
    unfold callMutator at h
    cases hroom : w.heap[a]? with
    | none =>
      simp only [hroom, Option.some.injEq, Prod.mk.injEq] at h
      obtain ⟨h1, h2⟩ := h
      subst h1 h2
      exact ⟨rfl, rfl, Or.inr (Or.inr (Or.inr (Or.inr (Or.inl ⟨a, rfl, hroom, rfl, rfl⟩))))⟩
    | some room =>
      simp only [hroom] at h
      cases hp : (t.f a room w.env).panicked
      · simp only [hp, Option.some.injEq, Prod.mk.injEq] at h
        obtain ⟨h1, h2⟩ := h
        subst h1 h2
        exact ⟨rfl, rfl, Or.inr (Or.inr (Or.inr (Or.inr (Or.inr (Or.inl
          ⟨a, room, rfl, hroom, Or.inr rfl, rfl⟩)))))⟩
      · simp only [hp, Option.some.injEq, Prod.mk.injEq] at h
        obtain ⟨h1, h2⟩ := h
        subst h1 h2
        exact ⟨rfl, rfl, Or.inr (Or.inr (Or.inr (Or.inr (Or.inr (Or.inl
          ⟨a, room, rfl, hroom, Or.inl rfl, rfl⟩)))))⟩
  | atUnlock =>
    rw [hpc] at h
    simp only [Option.some.injEq, Prod.mk.injEq] at h
    obtain ⟨h1, h2⟩ := h
    subst h1 h2
    exact ⟨rfl, rfl, Or.inr (Or.inr (Or.inr (Or.inr (Or.inr (Or.inr ⟨rfl, rfl, rfl⟩)))))⟩
  | returned =>
    rw [hpc] at h
    simp at h
  | panicked =>
    rw [hpc] at h
    simp at h

theorem System.step_some {σ : Type} (s s1 : System σ) (i : Nat) (h : s.step i = some s1) :
    ∃ t t1, s.crashed = false ∧ s.tasks[i]? = some t ∧
      t.step s.world = some (t1, s1.world) ∧ s1.tasks = s.tasks.set i t1 ∧
      s1.crashed = (t1.pc == PC.panicked) := by
  unfold System.step at h
  cases hc : s.crashed with
  | true => simp [hc] at h
  | false =>
    simp only [hc, Bool.false_eq_true, if_false] at h
    cases ht : s.tasks[i]? with
    | none => simp [ht] at h
    | some t =>
      simp only [ht] at h
      cases hs : t.step s.world with
      | none => simp [hs] at h
      | some p =>
        obtain ⟨t1, w1⟩ := p
        simp only [hs, Option.some.injEq] at h
        subst h
        exact ⟨t, t1, rfl, rfl, hs, rfl, rfl⟩

theorem getElem?_set_task {σ : Type} (l : List (Task σ)) (i j : Nat) (t t1 : Task σ)
    (hi : l[i]? = some t) :
    (l.set i t1)[j]? = if j = i then some t1 else l[j]? := by
  have hlt : i < l.length := by
    rcases Nat.lt_or_ge i l.length with h | h
    · exact h
    · rw [List.getElem?_eq_none h] at hi
      exact absurd hi (by simp)
  by_cases hji : j = i
  · subst hji
    simp [hlt]
  · have hij : i ≠ j := fun e => hji e.symm
    simp [hji, List.getElem?_set_ne hij]

theorem mapGet_single (name : String) (a : Nat) : mapGet [(name, a)] name = some a := by
  simp [mapGet]

/-- While a task advances, no other task stands between `Lock` and `Unlock`. -/
theorem SameNameInv_others {σ : Type} (name : String) (s : System σ) (i : Nat)
    (t t1 : Task σ) (w1 : World σ) (hinv : SameNameInv name s)
    (hti : s.tasks[i]? = some t) (hts : t.step s.world = some (t1, w1)) :
    ∀ j tj, j ≠ i → s.tasks[j]? = some tj → tj.pc.holdsLock = false := by
  obtain ⟨hok, huniq, _⟩ := hinv
  intro j tj hji hj
  cases hh : tj.pc.holdsLock with
  | false => rfl
  | true =>
    exfalso
    have hlock := (hok j tj hj).2.1 hh
    cases hth : t.pc.holdsLock with
    | true => exact hji (huniq j i tj t hj hti hh hth)
    | false =>
      obtain ⟨_, _, hcase⟩ := Task.step_cases t t1 s.world w1 hts
      rcases hcase with ⟨_, hfree, _⟩ | ⟨hpc, _⟩ | ⟨_, hpc, _⟩ | ⟨hpc, _⟩ | ⟨_, hpc, _⟩ |
        ⟨_, _, hpc, _⟩ | ⟨hpc, _⟩
      · rw [hfree] at hlock
        exact absurd hlock (by simp)
      all_goals (rw [hpc] at hth; simp [PC.holdsLock] at hth)

/-- What a step of a task does to the registry. -/
theorem SameNameInv_world {σ : Type} (name : String) (s : System σ) (i : Nat)
    (t t1 : Task σ) (w1 : World σ) (hinv : SameNameInv name s)
    (hti : s.tasks[i]? = some t) (hts : t.step s.world = some (t1, w1)) :
    (Created name s.world → Created name w1) ∧
    ((s.world.game.Rooms = [] ∧ s.world.heap = []) →
      (w1.game.Rooms = [] ∧ w1.heap = []) ∨ Created name w1) ∧
    TaskOK name w1 t1 := by
  obtain ⟨hok, huniq, hshape⟩ := hinv
  obtain ⟨hn, hlk, hcr, hcall, hun, hret⟩ := hok i t hti
  obtain ⟨hname, _, hcase⟩ := Task.step_cases t t1 s.world w1 hts
  have hn1 : t1.name = name := hname.trans hn
  rcases hcase with ⟨hpc, hfree, hpc1, hw⟩ | ⟨hpc, hget, hpc1, hw⟩ | ⟨a, hpc, hget, hpc1, hw⟩ |
    ⟨hpc, hpc1, hw⟩ | ⟨a, hpc, hroom, hpc1, hw⟩ | ⟨a, room, hpc, hroom, hpc1, hw⟩ |
    ⟨hpc, hpc1, hw⟩
  · subst hw
    refine ⟨fun h => h, fun h => Or.inl h, hn1, fun _ => rfl, ?_, ?_, ?_, ?_⟩ <;>
      simp [hpc1]
  · subst hw
    have hl : s.world.game.RoomsLock = true := hlk (by simp [hpc, PC.holdsLock])
    refine ⟨fun h => h, fun h => Or.inl h, hn1, fun _ => hl, fun _ => ?_, ?_, ?_, ?_⟩
    · rcases hshape with h | h
      · exact h
      · rw [h.1, hn, mapGet_single] at hget
        exact absurd hget (by simp)
    all_goals simp [hpc1]
  · subst hw
    have hl : s.world.game.RoomsLock = true := hlk (by simp [hpc, PC.holdsLock])
    refine ⟨fun h => h, fun h => Or.inl h, hn1, fun _ => hl, ?_, fun b hb => ?_, ?_, ?_⟩
    · simp [hpc1]
    · rw [hpc1] at hb
      simp only [PC.atCall.injEq] at hb
      subst hb
      rcases hshape with h | h
      · rw [h.1] at hget
        simp [mapGet] at hget
      · rw [h.1, hn, mapGet_single] at hget
        simp only [Option.some.injEq] at hget
        exact ⟨hget.symm, h⟩
    · simp [hpc1]
    · simp [hpc1]
  · subst hw
    have hl : s.world.game.RoomsLock = true := hlk (by simp [hpc, PC.holdsLock])
    obtain ⟨hr, hh⟩ := hcr hpc
    have hcreated : Created name (createRoom s.world t.name).2 := by
      simp [Created, createRoom, hr, hh, mapSet, hn]
    refine ⟨fun _ => hcreated, fun _ => Or.inr hcreated, hn1, fun _ => hl, ?_,
      fun b hb => ?_, ?_, ?_⟩
    · simp [hpc1]
    · rw [hpc1] at hb
      simp only [PC.atCall.injEq] at hb
      subst hb
      exact ⟨by simp [hh], hcreated⟩
    · simp [hpc1]
    · simp [hpc1]
  · subst hw
    have hl : s.world.game.RoomsLock = true := hlk (by simp [hpc, PC.holdsLock])
    refine ⟨fun h => h, fun h => Or.inl h, hn1, fun _ => hl, ?_, ?_, ?_, ?_⟩ <;>
      simp [hpc1]
  · subst hw
    have hl : s.world.game.RoomsLock = true := hlk (by simp [hpc, PC.holdsLock])
    have hkeep : Created name s.world → Created name
        { s.world with heap := s.world.heap.set a (t.f a room s.world.env).room,
                       env := (t.f a room s.world.env).env } := by
      intro h
      exact ⟨h.1, by simp only [List.length_set]; exact h.2⟩
    have hc := (hcall a hpc).2
    refine ⟨hkeep, fun _ => Or.inr (hkeep hc), hn1, fun _ => hl, ?_, ?_, fun _ => hkeep hc, ?_⟩
    · rcases hpc1 with h | h <;> simp [h]
    · rcases hpc1 with h | h <;> simp [h]
    · rcases hpc1 with h | h <;> simp [h]
  · subst hw
    have hc := hun hpc
    have hkeep : Created name s.world → Created name (unlockRooms s.world) := fun h => h
    refine ⟨hkeep, fun h => Or.inl h, hn1, ?_, ?_, ?_, ?_, fun _ => hkeep hc⟩ <;>
      simp [hpc1, PC.holdsLock]

theorem SameNameInv_step {σ : Type} (name : String) (s s1 : System σ) (i : Nat)
    (hinv : SameNameInv name s) (hstep : s.step i = some s1) : SameNameInv name s1 := by
  obtain ⟨t, t1, _, hti, hts, htasks, _⟩ := System.step_some s s1 i hstep
  have hget : ∀ j, s1.tasks[j]? = if j = i then some t1 else s.tasks[j]? := by
    intro j
    rw [htasks]
    exact getElem?_set_task _ i j t t1 hti
  have hothers := SameNameInv_others name s i t t1 s1.world hinv hti hts
  obtain ⟨hkeep, hempty, ht1⟩ := SameNameInv_world name s i t t1 s1.world hinv hti hts
  obtain ⟨hok, huniq, hshape⟩ := hinv
  refine ⟨?_, ?_, ?_⟩
  · intro j tj hj
    rw [hget j] at hj
    by_cases hji : j = i
    · simp only [hji, if_true, Option.some.injEq] at hj
      subst hj
      exact ht1
    · simp only [hji, if_false] at hj
      have hno := hothers j tj hji hj
      obtain ⟨hn, _, _, _, _, hret⟩ := hok j tj hj
      refine ⟨hn, ?_, ?_, ?_, ?_, fun h => hkeep (hret h)⟩
      · intro h
        rw [hno] at h
        exact absurd h (by simp)
      · intro h
        rw [h] at hno
        simp [PC.holdsLock] at hno
      · intro a h
        rw [h] at hno
        simp [PC.holdsLock] at hno
      · intro h
        rw [h] at hno
        simp [PC.holdsLock] at hno
  · intro j1 j2 tj1 tj2 h1 h2 hh1 hh2
    rw [hget j1] at h1
    rw [hget j2] at h2
    by_cases hj1 : j1 = i
    · by_cases hj2 : j2 = i
      · rw [hj1, hj2]
      · simp only [hj2, if_false] at h2
        have := hothers j2 tj2 hj2 h2
        rw [this] at hh2
        exact absurd hh2 (by simp)
    · simp only [hj1, if_false] at h1
      have := hothers j1 tj1 hj1 h1
      rw [this] at hh1
      exact absurd hh1 (by simp)
  · rcases hshape with h | h
    · exact hempty h
    · exact Or.inr (hkeep h)

theorem SameNameInv_run {σ : Type} (name : String) (schedule : List Nat) :
    ∀ s : System σ, SameNameInv name s → SameNameInv name (s.run schedule) := by
  induction schedule with
  | nil => exact fun s h => h
  | cons i rest ih =>
    intro s h
    unfold System.run
    cases hs : s.step i with
    | none => exact ih s h
    | some s1 => exact ih s1 (SameNameInv_step name s s1 i h hs)

theorem SameNameInv_start {σ : Type} (env : σ) (port : Int) (name : String)
    (callbacks : List (Mutator σ)) :
    SameNameInv name (System.start env port name callbacks) := by
  refine ⟨?_, ?_, Or.inl ⟨rfl, rfl⟩⟩
  · intro i t hi
    simp only [System.start, List.getElem?_map, Option.map_eq_some'] at hi
    obtain ⟨f, _, hf⟩ := hi
    subst hf
    simp [TaskOK, PC.holdsLock]
  · intro i j ti tj hi _ hh _
    simp only [System.start, List.getElem?_map, Option.map_eq_some'] at hi
    obtain ⟨f, _, hf⟩ := hi
    subst hf
    simp [PC.holdsLock] at hh

/-- While a task stands between `Lock` and `Unlock`, no other task can advance. -/
theorem SameNameInv_blocked {σ : Type} (name : String) (s : System σ)
    (hinv : SameNameInv name s) (i : Nat) (t : Task σ) (hti : s.tasks[i]? = some t)
    (hh : t.pc.holdsLock = true) (j : Nat) (hji : j ≠ i) : s.step j = none := by
  cases hs : s.step j with
  | none => rfl
  | some s1 =>
    exfalso
    obtain ⟨tj, tj1, _, htj, hts, _, _⟩ := System.step_some s s1 j hs
    have hno := SameNameInv_others name s j tj tj1 s1.world hinv htj hts i t
      (fun e => hji e.symm) hti
    rw [hno] at hh
    exact absurd hh (by simp)

/-- A task that does not stand between `Lock` and `Unlock` leaves the map and the
heap as they are when it advances. -/
theorem step_outside_lock {σ : Type} (s s1 : System σ) (j : Nat) (tj : Task σ)
    (htj : s.tasks[j]? = some tj) (hno : tj.pc.holdsLock = false)
    (hs : s.step j = some s1) :
    s1.world.heap = s.world.heap ∧ s1.world.game.Rooms = s.world.game.Rooms ∧
    s1.world.env = s.world.env := by
  obtain ⟨t, t1, _, ht, hts, _, _⟩ := System.step_some s s1 j hs
  rw [htj] at ht
  simp only [Option.some.injEq] at ht
  subst ht
  obtain ⟨_, _, hcase⟩ := Task.step_cases tj t1 s.world s1.world hts
  rcases hcase with ⟨_, _, _, hw⟩ | ⟨hpc, _⟩ | ⟨_, hpc, _⟩ | ⟨hpc, _⟩ | ⟨_, hpc, _⟩ |
    ⟨_, _, hpc, _⟩ | ⟨hpc, _⟩
  · rw [hw]
    exact ⟨rfl, rfl, rfl⟩
  all_goals (rw [hpc] at hno; simp [PC.holdsLock] at hno)

/-- Tasks that all call `OpenRoom(name, _)` from the empty registry, under any
schedule: the heap never holds more than one room; once a task is past the
creation it holds exactly one, stored under `name`; every callback is called
with the address of that room; at most one task stands between `Lock` and
`Unlock`; while a callback runs no other task can advance; and a task outside
`Lock`/`Unlock` that advances leaves the map and the rooms as they are. -/
theorem same_name_single_room {σ : Type} (env : σ) (port : Int) (name : String)
    (callbacks : List (Mutator σ)) (schedule : List Nat) :
    (System.reached env port name callbacks schedule).world.heap.length ≤ 1 ∧
    (∀ (i : Nat) (t : Task σ),
      (System.reached env port name callbacks schedule).tasks[i]? = some t →
      ((∃ a, t.pc = PC.atCall a) ∨ t.pc = PC.atUnlock ∨ t.pc = PC.returned) →
      (System.reached env port name callbacks schedule).world.heap.length = 1 ∧
      (System.reached env port name callbacks schedule).world.game.Rooms = [(name, 0)]) ∧
    (∀ (i : Nat) (t : Task σ) (a : Nat),
      (System.reached env port name callbacks schedule).tasks[i]? = some t →
      t.pc = PC.atCall a →
      a = 0 ∧
      mapGet (System.reached env port name callbacks schedule).world.game.Rooms name = some a) ∧
    (∀ (i j : Nat) (ti tj : Task σ),
      (System.reached env port name callbacks schedule).tasks[i]? = some ti →
      (System.reached env port name callbacks schedule).tasks[j]? = some tj →
      ti.pc.holdsLock = true → tj.pc.holdsLock = true → i = j) ∧
    (∀ (i : Nat) (t : Task σ) (a : Nat),
      (System.reached env port name callbacks schedule).tasks[i]? = some t →
      t.pc = PC.atCall a →
      ∀ j, j ≠ i → (System.reached env port name callbacks schedule).step j = none) ∧
    (∀ (j : Nat) (tj : Task σ) (s1 : System σ),
      (System.reached env port name callbacks schedule).tasks[j]? = some tj →
      tj.pc.holdsLock = false →
      (System.reached env port name callbacks schedule).step j = some s1 →
      s1.world.heap = (System.reached env port name callbacks schedule).world.heap ∧
      s1.world.game.Rooms =
        (System.reached env port name callbacks schedule).world.game.Rooms) := by
  have hinv : SameNameInv name (System.reached env port name callbacks schedule) :=
    SameNameInv_run name schedule _ (SameNameInv_start env port name callbacks)
  generalize System.reached env port name callbacks schedule = s at hinv
  have hinv0 := hinv
  obtain ⟨hok, huniq, hshape⟩ := hinv
  refine ⟨?_, ?_, ?_, huniq, ?_, ?_⟩
  · rcases hshape with h | h
    · simp [h.2]
    · exact Nat.le_of_eq h.2
  · intro i t hti hpc
    obtain ⟨_, _, _, hcall, hun, hret⟩ := hok i t hti
    have hc : Created name s.world := by
      rcases hpc with ⟨a, h⟩ | h | h
      · exact (hcall a h).2
      · exact hun h
      · exact hret h
    exact ⟨hc.2, hc.1⟩
  · intro i t a hti hpc
    obtain ⟨_, _, _, hcall, _, _⟩ := hok i t hti
    obtain ⟨ha, hc⟩ := hcall a hpc
    subst ha
    exact ⟨rfl, by rw [hc.1]; exact mapGet_single name 0⟩
  · intro i t a hti hpc j hji
    exact SameNameInv_blocked name s hinv0 i t hti (by simp [hpc, PC.holdsLock]) j hji
  · intro j tj s1 htj hno hs
    obtain ⟨h1, h2, _⟩ := step_outside_lock s s1 j tj htj hno hs
    exact ⟨h1, h2⟩

/-- Two sessions joining `lobby` under an interleaved schedule: both calls
return, and the one room holds both clients in the order in which they took the
mutex. -/
theorem two_sessions_interleaved :
    (System.reached ([] : Log) 6000 "lobby"
      [joinMutator (sessionClient connAlice 1), joinMutator (sessionClient connBob 1)]
      [1, 0, 1, 0, 1, 0, 1, 0, 1, 1, 0, 0, 0, 0]).world.heap =
      [{ Name := "lobby", Clients := [sessionClient connBob 1, sessionClient connAlice 1] }] ∧
    (System.reached ([] : Log) 6000 "lobby"
      [joinMutator (sessionClient connAlice 1), joinMutator (sessionClient connBob 1)]
      [1, 0, 1, 0, 1, 0, 1, 0, 1, 1, 0, 0, 0, 0]).tasks.map (fun t => t.pc) =
      [PC.returned, PC.returned] := by
  decide

/-! ## A task running alone does what `OpenRoom` does -/

theorem System.step_of_task {σ : Type} (s : System σ) (i : Nat) (t : Task σ)
    (hc : s.crashed = false) (hti : s.tasks[i]? = some t) :
    s.step i = match t.step s.world with
      | none => none
      | some (t1, w1) =>
        some { world := w1, tasks := s.tasks.set i t1, crashed := t1.pc == PC.panicked } := by
  simp [System.step, hc, hti]

theorem getElem?_set_self_task {σ : Type} (l : List (Task σ)) (i : Nat) (t t1 : Task σ)
    (hi : l[i]? = some t) : (l.set i t1)[i]? = some t1 := by
  rw [getElem?_set_task l i i t t1 hi]
  simp

theorem System.run_over {σ : Type} (s : System σ) (i : Nat)
    (h : s.crashed = true ∨ ∃ t, s.tasks[i]? = some t ∧ t.pc = PC.returned) (n : Nat) :
    s.run (List.replicate n i) = s := by
  have hstep : s.step i = none := by
    rcases h with h | ⟨t, ht, hpc⟩
    · simp [System.step, h]
    · cases hc : s.crashed with
      | true => simp [System.step, hc]
      | false =>
        rw [System.step_of_task s i t hc ht]
        simp [Task.step, hpc]
  induction n with
  | zero => rfl
  | succ n ih =>
    rw [List.replicate_succ, System.run, hstep]
    exact ih

theorem System.run_from_call {σ : Type} (s : System σ) (i a : Nat) (name : String)
    (f : Mutator σ) (hc : s.crashed = false) (hti : s.tasks[i]? = some ⟨name, f, PC.atCall a⟩)
    (n : Nat) :
    (s.run (List.replicate (n + 2) i)).world =
      (match callMutator s.world a f with
       | none => (s.world, Exit.panicked)
       | some (w3, true) => (w3, Exit.panicked)
       | some (w3, false) => (unlockRooms w3, Exit.returned)).1 := by
  rw [List.replicate_succ, System.run, System.step_of_task s i _ hc hti]
  cases hcall : callMutator s.world a f with
  | none =>
    simp only [Task.step, hcall]
    rw [System.run_over _ i (Or.inl (by simp))]
  | some p =>
    obtain ⟨w3, b⟩ := p
    cases b with
    | true =>
      simp only [Task.step, hcall]
      rw [System.run_over _ i (Or.inl (by simp))]
    | false =>
      simp only [Task.step, hcall]
      have ht1 := getElem?_set_self_task s.tasks i _ ⟨name, f, PC.atUnlock⟩ hti
      rw [List.replicate_succ, System.run, System.step_of_task _ i _ (by simp) ht1]
      simp only [Task.step]
      rw [System.run_over _ i (Or.inr ⟨⟨name, f, PC.returned⟩,
        getElem?_set_self_task _ i _ _ ht1, rfl⟩)]

/-- A task that runs alone from `Lock` on a free mutex does what `OpenRoom` does. -/
theorem System.run_alone {σ : Type} (s : System σ) (i : Nat) (name : String) (f : Mutator σ)
    (hc : s.crashed = false) (hti : s.tasks[i]? = some ⟨name, f, PC.atLock⟩)
    (hfree : s.world.game.RoomsLock = false) :
    (s.run [i, i, i, i, i]).world = (OpenRoom s.world name f).1 := by
  rw [OpenRoom_eq _ _ _ hfree]
  have h5 : [i, i, i, i, i] = List.replicate 5 i := rfl
  rw [h5, List.replicate_succ, System.run, System.step_of_task s i _ hc hti]
  simp only [Task.step, hfree, Bool.false_eq_true, if_false]
  have ht1 := getElem?_set_self_task s.tasks i _ ⟨name, f, PC.atLookup⟩ hti
  rw [List.replicate_succ, System.run, System.step_of_task _ i _ (by simp) ht1]
  simp only [Task.step]
  cases hget : mapGet (lockRooms s.world).game.Rooms name with
  | some a =>
    have hlc : lookupOrCreate (lockRooms s.world) name = (a, lockRooms s.world) := by
      simp [lookupOrCreate, hget]
    rw [hlc]
    simp only
    have ht2 := getElem?_set_self_task _ i _ ⟨name, f, PC.atCall a⟩ ht1
    exact System.run_from_call _ i a name f (by simp) ht2 1
  | none =>
    have hlc : lookupOrCreate (lockRooms s.world) name = createRoom (lockRooms s.world) name := by
      simp [lookupOrCreate, hget]
    rw [hlc]
    simp only
    have ht2 := getElem?_set_self_task _ i _ ⟨name, f, PC.atCreate⟩ ht1
    rw [List.replicate_succ, System.run, System.step_of_task _ i _ (by simp) ht2]
    simp only [Task.step]
    have ht3 := getElem?_set_self_task _ i _
      ⟨name, f, PC.atCall (createRoom (lockRooms s.world) name).1⟩ ht2
    exact System.run_from_call _ i _ name f (by simp) ht3 0

/-! ## Concurrent calls: every run is a serial run -/

theorem mapGet_none_iff (m : List (String × Nat)) (k : String) :
    mapGet m k = none ↔ k ∉ m.map Prod.fst := by
  induction m with
  | nil => simp [mapGet]
  | cons p rest ih =>
    obtain ⟨k1, v1⟩ := p
    by_cases h : k1 = k
    · simp [mapGet, h]
    · have h2 : ¬ k = k1 := fun e => h e.symm
      simp [mapGet, h, h2, ih]

theorem mapGet_mem (m : List (String × Nat)) (k : String) (a : Nat)
    (h : mapGet m k = some a) : (k, a) ∈ m := by
  induction m with
  | nil => simp [mapGet] at h
  | cons p rest ih =>
    obtain ⟨k1, v1⟩ := p
    by_cases hk : k1 = k
    · simp only [mapGet, hk, if_true, Option.some.injEq] at h
      subst hk h
      exact List.mem_cons_self _ _
    · simp only [mapGet, hk, if_false] at h
      exact List.mem_cons_of_mem _ (ih h)

theorem mapSet_absent (m : List (String × Nat)) (k : String) (v : Nat)
    (h : mapGet m k = none) : mapSet m k v = m ++ [(k, v)] := by
  induction m with
  | nil => rfl
  | cons p rest ih =>
    obtain ⟨k1, v1⟩ := p
    by_cases hk : k1 = k
    · simp [mapGet, hk] at h
    · simp only [mapGet, hk, if_false] at h
      simp [mapSet, hk, ih h]

theorem OneRoomPerKey_lt {σ : Type} (w : World σ) (hs : OneRoomPerKey w) (k : String)
    (a : Nat) (h : mapGet w.game.Rooms k = some a) : a < w.heap.length := by
  have hmem : a ∈ w.game.Rooms.map Prod.snd :=
    List.mem_map.mpr ⟨(k, a), mapGet_mem _ k a h, rfl⟩
  rw [hs.2] at hmem
  exact List.mem_range.mp hmem

theorem OneRoomPerKey_valid {σ : Type} (w : World σ) (hs : OneRoomPerKey w) :
    ValidPointers w :=
  fun k a h => OneRoomPerKey_lt w hs k a h

theorem OneRoomPerKey_create {σ : Type} (w : World σ) (name : String)
    (hs : OneRoomPerKey w) (h : mapGet w.game.Rooms name = none) :
    OneRoomPerKey (createRoom w name).2 := by
  obtain ⟨h1, h2⟩ := hs
  have hnot := (mapGet_none_iff _ _).mp h
  constructor
  · simp only [createRoom, mapSet_absent _ _ _ h, List.map_append, List.map_cons, List.map_nil]
    rw [List.nodup_append]
    refine ⟨h1, List.nodup_singleton _, ?_⟩
    intro x hx hx2
    simp only [List.mem_singleton] at hx2
    subst hx2
    exact hnot hx
  · simp only [createRoom, mapSet_absent _ _ _ h, List.map_append, List.map_cons, List.map_nil,
      List.length_append, List.length_singleton, List.range_succ, h2]

theorem callMutator_facts {σ : Type} (w w1 : World σ) (a : Nat) (f : Mutator σ) (b : Bool)
    (h : callMutator w a f = some (w1, b)) :
    w1.game = w.game ∧ w1.heap.length = w.heap.length := by
  unfold callMutator at h
  cases hroom : w.heap[a]? with
  | none => simp [hroom] at h
  | some room =>
    simp only [hroom, Option.some.injEq, Prod.mk.injEq] at h
    obtain ⟨h1, _⟩ := h
    subst h1
    exact ⟨rfl, by simp⟩

theorem lookupOrCreate_get {σ : Type} (w : World σ) (name : String) :
    mapGet (lookupOrCreate w name).2.game.Rooms name = some (lookupOrCreate w name).1 := by
  unfold lookupOrCreate
  cases hget : mapGet w.game.Rooms name with
  | none => simp [createRoom, mapGet_mapSet_same]
  | some a => exact hget

theorem Task.step_call {σ : Type} (t t1 : Task σ) (w w1 : World σ) (a : Nat)
    (hpc : t.pc = PC.atCall a) (h : t.step w = some (t1, w1)) :
    t1.name = t.name ∧ t1.f = t.f ∧
    ((callMutator w a t.f = none ∧ t1.pc = PC.panicked ∧ w1 = w) ∨
     (callMutator w a t.f = some (w1, true) ∧ t1.pc = PC.panicked) ∨
     (callMutator w a t.f = some (w1, false) ∧ t1.pc = PC.atUnlock)) := by
  unfold Task.step at h
  rw [hpc] at h
  cases hcall : callMutator w a t.f with
  | none =>
    simp only [hcall, Option.some.injEq, Prod.mk.injEq] at h
    obtain ⟨h1, h2⟩ := h
    subst h1 h2
    exact ⟨rfl, rfl, Or.inl ⟨rfl, rfl, rfl⟩⟩
  | some p =>
    obtain ⟨w3, b⟩ := p
    cases b with
    | true =>
      simp only [hcall, Option.some.injEq, Prod.mk.injEq] at h
      obtain ⟨h1, h2⟩ := h
      subst h1 h2
      exact ⟨rfl, rfl, Or.inr (Or.inl ⟨rfl, rfl⟩)⟩
    | false =>
      simp only [hcall, Option.some.injEq, Prod.mk.injEq] at h
      obtain ⟨h1, h2⟩ := h
      subst h1 h2
      exact ⟨rfl, rfl, Or.inr (Or.inr ⟨rfl, rfl⟩)⟩

theorem Held_locked {σ : Type} (ws w : World σ) (t : Task σ) (crashed : Bool)
    (h : Held ws t w crashed) (hh : t.pc.holdsLock = true) (hc : crashed = false) :
    w.game.RoomsLock = true := by
  unfold Held at h
  cases hpc : t.pc with
  | atLock => rw [hpc] at hh; simp [PC.holdsLock] at hh
  | returned => rw [hpc] at hh; simp [PC.holdsLock] at hh
  | atLookup =>
    rw [hpc] at h
    simp only at h
    rw [h.1]
    rfl
  | atCreate =>
    rw [hpc] at h
    simp only at h
    rw [h.1]
    rfl
  | atCall a =>
    rw [hpc] at h
    simp only at h
    have h2 := (lookupOrCreate_facts (lockRooms ws) t.name).1
    rw [h.1] at h2
    exact h2
  | atUnlock =>
    rw [hpc] at h
    exact h.2.1
  | panicked =>
    rw [hpc] at h
    simp only at h
    rw [h.2] at hc
    exact absurd hc (by simp)

theorem serial_append {σ : Type} (calls : List (String × Mutator σ)) (w : World σ)
    (order : List Nat) (i : Nat) (c : String × Mutator σ) (hc : calls[i]? = some c) :
    serial calls w (order ++ [i]) = (OpenRoom (serial calls w order) c.1 c.2).1 := by
  simp [serial, List.foldl_append, hc]

/-- While a task advances, no other task stands between `Lock` and `Unlock`. -/
theorem Serial_others {σ : Type} (calls : List (String × Mutator σ)) (w0 : World σ)
    (s : System σ) (order : List Nat) (i : Nat) (t t1 : Task σ) (w1 : World σ)
    (hinv : Serial calls w0 s order) (hc : s.crashed = false)
    (hti : s.tasks[i]? = some t) (hts : t.step s.world = some (t1, w1)) :
    ∀ (j : Nat) (tj : Task σ), j ≠ i → s.tasks[j]? = some tj → tj.pc.holdsLock = false := by
  intro j tj hji hj
  cases hh : tj.pc.holdsLock with
  | false => rfl
  | true =>
    exfalso
    have hlock := Held_locked _ _ _ _ (hinv.held j tj hj hh) hh hc
    cases hth : t.pc.holdsLock with
    | true => exact hji (hinv.unique j i tj t hj hti hh hth)
    | false =>
      obtain ⟨_, _, hcase⟩ := Task.step_cases t t1 s.world w1 hts
      rcases hcase with ⟨_, hfree, _⟩ | ⟨hpc, _⟩ | ⟨_, hpc, _⟩ | ⟨hpc, _⟩ | ⟨_, hpc, _⟩ |
        ⟨_, _, hpc, _⟩ | ⟨hpc, _⟩
      · rw [hfree] at hlock
        exact absurd hlock (by simp)
      all_goals (rw [hpc] at hth; simp [PC.holdsLock] at hth)

/-- The part of the invariant that does not depend on the statement executed. -/
theorem Serial_frame {σ : Type} (calls : List (String × Mutator σ)) (w0 : World σ)
    (s s1 : System σ) (order order1 : List Nat) (i : Nat) (t t1 : Task σ)
    (hinv : Serial calls w0 s order)
    (hti : s.tasks[i]? = some t) (htasks : s1.tasks = s.tasks.set i t1)
    (hname : t1.name = t.name) (hf : t1.f = t.f)
    (hothers : ∀ (j : Nat) (tj : Task σ), j ≠ i → s.tasks[j]? = some tj →
      tj.pc.holdsLock = false)
    (hnodup : order1.Nodup)
    (hmem : ∀ j, j ∈ order1 ↔ (j ∈ order ∧ j ≠ i) ∨ (j = i ∧ t1.pc = PC.returned))
    (hfree : (serial calls w0 order1).game.RoomsLock = false)
    (hidle : t1.pc.holdsLock = false →
      s1.world = serial calls w0 order1 ∧ s1.crashed = false)
    (hheld : t1.pc.holdsLock = true → Held (serial calls w0 order1) t1 s1.world s1.crashed)
    (hshape : OneRoomPerKey s1.world) :
    Serial calls w0 s1 order1 := by
  have hget : ∀ j, s1.tasks[j]? = if j = i then some t1 else s.tasks[j]? := by
    intro j
    rw [htasks]
    exact getElem?_set_task _ i j t t1 hti
  refine ⟨hnodup, ?_, ?_, hfree, ?_, ?_, ?_, hshape⟩
  · intro j
    rw [hmem j, hget j]
    by_cases hji : j = i
    · subst hji
      constructor
      · rintro (⟨_, h⟩ | ⟨_, h⟩)
        · exact absurd rfl h
        · exact ⟨t1, by simp, h⟩
      · rintro ⟨t2, h2, h3⟩
        simp only [if_true, Option.some.injEq] at h2
        subst h2
        exact Or.inr ⟨rfl, h3⟩
    · simp only [hji, if_false, false_and, or_false, ne_eq, not_false_eq_true, and_true]
      exact hinv.mem j
  · intro j
    rw [hget j]
    by_cases hji : j = i
    · subst hji
      have := hinv.tasks j
      rw [hti] at this
      simp only [if_true, Option.map_some', hname, hf]
      simpa using this
    · simp only [hji, if_false]
      exact hinv.tasks j
  · intro hall
    apply hidle
    have := hall i t1 (by rw [hget i]; simp)
    exact this
  · intro j tj hj hh
    rw [hget j] at hj
    by_cases hji : j = i
    · simp only [hji, if_true, Option.some.injEq] at hj
      subst hj
      exact hheld hh
    · simp only [hji, if_false] at hj
      have := hothers j tj hji hj
      rw [this] at hh
      exact absurd hh (by simp)
  · intro j1 j2 tj1 tj2 h1 h2 hh1 hh2
    rw [hget j1] at h1
    rw [hget j2] at h2
    by_cases hj1 : j1 = i
    · by_cases hj2 : j2 = i
      · rw [hj1, hj2]
      · simp only [hj2, if_false] at h2
        have := hothers j2 tj2 hj2 h2
        rw [this] at hh2
        exact absurd hh2 (by simp)
    · simp only [hj1, if_false] at h1
      have := hothers j1 tj1 hj1 h1
      rw [this] at hh1
      exact absurd hh1 (by simp)

/-- The call of the callback keeps the invariant. -/
theorem Serial_step_call {σ : Type} (calls : List (String × Mutator σ)) (w0 : World σ)
    (s s1 : System σ) (order : List Nat) (i : Nat) (t t1 : Task σ) (a : Nat)
    (hinv : Serial calls w0 s order) (hti : s.tasks[i]? = some t)
    (hts : t.step s.world = some (t1, s1.world)) (htasks : s1.tasks = s.tasks.set i t1)
    (hcr : s1.crashed = (t1.pc == PC.panicked))
    (hothers : ∀ (j : Nat) (tj : Task σ), j ≠ i → s.tasks[j]? = some tj →
      tj.pc.holdsLock = false)
    (hpc : t.pc = PC.atCall a)
    (hstay : t1.pc ≠ PC.returned →
      (∀ j, j ∈ order ↔ (j ∈ order ∧ j ≠ i) ∨ (j = i ∧ t1.pc = PC.returned))) :
    ∃ order1, Serial calls w0 s1 order1 ∧ (order1 = order ∨ order1 = order ++ [i]) := by
  obtain ⟨hname, hf, hcase⟩ := Task.step_call t t1 s.world s1.world a hpc hts
  have hheld := hinv.held i t hti (by simp [hpc, PC.holdsLock])
  unfold Held at hheld
  rw [hpc] at hheld
  simp only at hheld
  have hopen := OpenRoom_eq (serial calls w0 order) t.name t.f hinv.free
  rw [hheld.1] at hopen
  simp only at hopen
  have hlock : s.world.game.RoomsLock = true := by
    have h2 := (lookupOrCreate_facts (lockRooms (serial calls w0 order)) t.name).1
    rw [hheld.1] at h2
    exact h2
  rcases hcase with ⟨hcall, hpc1, hw⟩ | ⟨hcall, hpc1⟩ | ⟨hcall, hpc1⟩
  · rw [hcall] at hopen
    refine ⟨order, Serial_frame calls w0 s s1 order order i t t1 hinv hti htasks hname hf
      hothers hinv.nodup (hstay (by simp [hpc1])) hinv.free ?_ ?_ ?_, Or.inl rfl⟩
    · intro h
      rw [hpc1] at h
      simp [PC.holdsLock] at h
    · intro _
      unfold Held
      rw [hpc1]
      simp only
      exact ⟨by rw [hname, hf, hopen, hw], by rw [hcr, hpc1]; rfl⟩
    · rw [hw]
      exact hinv.shape
  · rw [hcall] at hopen
    obtain ⟨hg, hl⟩ := callMutator_facts _ _ _ _ _ hcall
    refine ⟨order, Serial_frame calls w0 s s1 order order i t t1 hinv hti htasks hname hf
      hothers hinv.nodup (hstay (by simp [hpc1])) hinv.free ?_ ?_ ?_, Or.inl rfl⟩
    · intro h
      rw [hpc1] at h
      simp [PC.holdsLock] at h
    · intro _
      unfold Held
      rw [hpc1]
      simp only
      exact ⟨by rw [hname, hf, hopen], by rw [hcr, hpc1]; rfl⟩
    · unfold OneRoomPerKey
      rw [hg, hl]
      exact hinv.shape
  · rw [hcall] at hopen
    obtain ⟨hg, hl⟩ := callMutator_facts _ _ _ _ _ hcall
    refine ⟨order, Serial_frame calls w0 s s1 order order i t t1 hinv hti htasks hname hf
      hothers hinv.nodup (hstay (by simp [hpc1])) hinv.free ?_ ?_ ?_, Or.inl rfl⟩
    · intro h
      rw [hpc1] at h
      simp [PC.holdsLock] at h
    · intro _
      unfold Held
      rw [hpc1]
      simp only
      exact ⟨by rw [hname, hf, hopen], by rw [hg]; exact hlock, by rw [hcr, hpc1]; rfl⟩
    · unfold OneRoomPerKey
      rw [hg, hl]
      exact hinv.shape

/-- A statement of a task keeps the invariant; the order grows by the task when
the statement is its `Unlock`. -/
theorem Serial_step {σ : Type} (calls : List (String × Mutator σ)) (w0 : World σ)
    (s s1 : System σ) (order : List Nat) (i : Nat)
    (hinv : Serial calls w0 s order) (hstep : s.step i = some s1) :
    ∃ order1, Serial calls w0 s1 order1 ∧ (order1 = order ∨ order1 = order ++ [i]) := by
  obtain ⟨t, t1, hc, hti, hts, htasks, hcr⟩ := System.step_some s s1 i hstep
  have hothers := Serial_others calls w0 s order i t t1 s1.world hinv hc hti hts
  obtain ⟨hname, hf, hcase⟩ := Task.step_cases t t1 s.world s1.world hts
  have hcall : calls[i]? = some (t.name, t.f) := by
    have := hinv.tasks i
    rw [hti] at this
    simpa using this.symm
  -- while the task is not at `Unlock` the order stays
  have hstay : t.pc ≠ PC.returned → t1.pc ≠ PC.returned →
      (∀ j, j ∈ order ↔ (j ∈ order ∧ j ≠ i) ∨ (j = i ∧ t1.pc = PC.returned)) := by
    intro hn hn1 j
    constructor
    · intro hj
      refine Or.inl ⟨hj, fun e => ?_⟩
      subst e
      obtain ⟨t2, h2, h3⟩ := (hinv.mem j).mp hj
      rw [hti] at h2
      simp only [Option.some.injEq] at h2
      subst h2
      exact hn h3
    · rintro (⟨h, _⟩ | ⟨_, h⟩)
      · exact h
      · exact absurd h hn1
  have hidleOthers : t.pc.holdsLock = false →
      s.world = serial calls w0 order ∧ s.crashed = false := by
    intro hno
    apply hinv.idle
    intro j tj hj
    by_cases hji : j = i
    · subst hji
      rw [hti] at hj
      simp only [Option.some.injEq] at hj
      subst hj
      exact hno
    · exact hothers j tj hji hj
  rcases hcase with ⟨hpc, hfree, hpc1, hw⟩ | ⟨hpc, hget, hpc1, hw⟩ | ⟨a, hpc, hget, hpc1, hw⟩ |
    ⟨hpc, hpc1, hw⟩ | ⟨a, hpc, hroom, hpc1, hw⟩ | ⟨a, room, hpc, hroom, hpc1, hw⟩ |
    ⟨hpc, hpc1, hw⟩
  · -- Lock
    obtain ⟨hworld, _⟩ := hidleOthers (by simp [hpc, PC.holdsLock])
    refine ⟨order, Serial_frame calls w0 s s1 order order i t t1 hinv hti htasks hname hf
      hothers hinv.nodup (hstay (by simp [hpc]) (by simp [hpc1])) hinv.free ?_ ?_ ?_, Or.inl rfl⟩
    · intro h
      rw [hpc1] at h
      simp [PC.holdsLock] at h
    · intro _
      unfold Held
      rw [hpc1]
      simp only
      exact ⟨by rw [hw, hworld], by rw [hcr, hpc1]; rfl⟩
    · rw [hw]
      exact hinv.shape
  · -- lookup, absent
    have hheld := hinv.held i t hti (by simp [hpc, PC.holdsLock])
    unfold Held at hheld
    rw [hpc] at hheld
    simp only at hheld
    refine ⟨order, Serial_frame calls w0 s s1 order order i t t1 hinv hti htasks hname hf
      hothers hinv.nodup (hstay (by simp [hpc]) (by simp [hpc1])) hinv.free ?_ ?_ ?_, Or.inl rfl⟩
    · intro h
      rw [hpc1] at h
      simp [PC.holdsLock] at h
    · intro _
      unfold Held
      rw [hpc1]
      simp only
      refine ⟨by rw [hw, hheld.1], ?_, by rw [hcr, hpc1]; rfl⟩
      rw [hname]
      rw [hheld.1] at hget
      exact hget
    · rw [hw]
      exact hinv.shape
  · -- lookup, present
    have hheld := hinv.held i t hti (by simp [hpc, PC.holdsLock])
    unfold Held at hheld
    rw [hpc] at hheld
    simp only at hheld
    refine ⟨order, Serial_frame calls w0 s s1 order order i t t1 hinv hti htasks hname hf
      hothers hinv.nodup (hstay (by simp [hpc]) (by simp [hpc1])) hinv.free ?_ ?_ ?_, Or.inl rfl⟩
    · intro h
      rw [hpc1] at h
      simp [PC.holdsLock] at h
    · intro _
      unfold Held
      rw [hpc1]
      simp only
      refine ⟨?_, by rw [hcr, hpc1]; rfl⟩
      rw [hname, hw, hheld.1]
      rw [hheld.1] at hget
      simp only [lookupOrCreate, hget]
    · rw [hw]
      exact hinv.shape
  · -- creation
    have hheld := hinv.held i t hti (by simp [hpc, PC.holdsLock])
    unfold Held at hheld
    rw [hpc] at hheld
    simp only at hheld
    have hnone : mapGet s.world.game.Rooms t.name = none := by
      rw [hheld.1]
      exact hheld.2.1
    refine ⟨order, Serial_frame calls w0 s s1 order order i t t1 hinv hti htasks hname hf
      hothers hinv.nodup (hstay (by simp [hpc]) (by simp [hpc1])) hinv.free ?_ ?_ ?_, Or.inl rfl⟩
    · intro h
      rw [hpc1] at h
      simp [PC.holdsLock] at h
    · intro _
      unfold Held
      rw [hpc1]
      simp only
      refine ⟨?_, by rw [hcr, hpc1]; rfl⟩
      rw [hname, hw, hheld.1]
      have : mapGet (lockRooms (serial calls w0 order)).game.Rooms t.name = none := hheld.2.1
      simp only [lookupOrCreate, this, createRoom]
    · rw [hw]
      exact OneRoomPerKey_create s.world t.name hinv.shape hnone
  · -- the callback, on a pointer that is not the address of a room
    exact Serial_step_call calls w0 s s1 order i t t1 a hinv hti hts htasks hcr hothers hpc
      (hstay (by simp [hpc]))
  · -- the callback
    exact Serial_step_call calls w0 s s1 order i t t1 a hinv hti hts htasks hcr hothers hpc
      (hstay (by simp [hpc]))
  · -- Unlock
    have hheld := hinv.held i t hti (by simp [hpc, PC.holdsLock])
    unfold Held at hheld
    rw [hpc] at hheld
    simp only at hheld
    have hnotin : i ∉ order := by
      intro hi
      obtain ⟨t2, h2, h3⟩ := (hinv.mem i).mp hi
      rw [hti] at h2
      simp only [Option.some.injEq] at h2
      subst h2
      rw [hpc] at h3
      exact absurd h3 (by simp)
    have hser : serial calls w0 (order ++ [i]) = unlockRooms s.world := by
      rw [serial_append calls w0 order i (t.name, t.f) hcall, hheld.1]
    refine ⟨order ++ [i], Serial_frame calls w0 s s1 order (order ++ [i]) i t t1 hinv hti htasks
      hname hf hothers ?_ ?_ ?_ ?_ ?_ ?_, Or.inr rfl⟩
    · rw [List.nodup_append]
      refine ⟨hinv.nodup, List.nodup_singleton _, ?_⟩
      intro x hx hx2
      simp only [List.mem_singleton] at hx2
      subst hx2
      exact hnotin hx
    · intro j
      simp only [List.mem_append, List.mem_singleton]
      constructor
      · rintro (h | h)
        · exact Or.inl ⟨h, fun e => hnotin (e ▸ h)⟩
        · exact Or.inr ⟨h, hpc1⟩
      · rintro (⟨h, _⟩ | ⟨h, _⟩)
        · exact Or.inl h
        · exact Or.inr h
    · rw [hser]
      rfl
    · intro _
      exact ⟨by rw [hser, hw], by rw [hcr, hpc1]; rfl⟩
    · intro h
      rw [hpc1] at h
      simp [PC.holdsLock] at h
    · rw [hw]
      exact hinv.shape

theorem Serial_init {σ : Type} (calls : List (String × Mutator σ)) (w0 : World σ)
    (hfree : w0.game.RoomsLock = false) (hshape : OneRoomPerKey w0) :
    Serial calls w0 (System.init w0 calls) [] := by
  have hpc : ∀ (i : Nat) (t : Task σ), (System.init w0 calls).tasks[i]? = some t →
      t.pc = PC.atLock := by
    intro i t hi
    simp only [System.init, List.getElem?_map, Option.map_eq_some'] at hi
    obtain ⟨c, _, hc⟩ := hi
    subst hc
    rfl
  refine ⟨List.nodup_nil, ?_, ?_, hfree, fun _ => ⟨rfl, rfl⟩, ?_, ?_, hshape⟩
  · intro i
    constructor
    · intro h
      simp at h
    · rintro ⟨t, ht, h⟩
      rw [hpc i t ht] at h
      simp at h
  · intro i
    simp only [System.init, List.getElem?_map]
    cases calls[i]? <;> simp
  · intro i t hi hh
    rw [hpc i t hi] at hh
    simp [PC.holdsLock] at hh
  · intro i j ti tj hi _ hh _
    rw [hpc i ti hi] at hh
    simp [PC.holdsLock] at hh

theorem Serial_run {σ : Type} (calls : List (String × Mutator σ)) (w0 : World σ)
    (schedule : List Nat) :
    ∀ (s : System σ) (order : List Nat), Serial calls w0 s order →
      ∃ order1, Serial calls w0 (s.run schedule) order1 := by
  induction schedule with
  | nil => exact fun s order h => ⟨order, h⟩
  | cons i rest ih =>
    intro s order h
    unfold System.run
    cases hs : s.step i with
    | none => exact ih s order h
    | some s1 =>
      obtain ⟨order1, h1, _⟩ := Serial_step calls w0 s s1 order i h hs
      exact ih s1 order1 h1

theorem System.run_append {σ : Type} (a b : List Nat) :
    ∀ s : System σ, s.run (a ++ b) = (s.run a).run b := by
  induction a with
  | nil => exact fun s => rfl
  | cons i rest ih =>
    intro s
    simp only [List.cons_append, System.run]
    cases s.step i with
    | none => exact ih s
    | some s1 => exact ih s1

/-- The world of an invariant state keeps the entries of its map when a task advances. -/
theorem Serial_step_keeps {σ : Type} (calls : List (String × Mutator σ)) (w0 : World σ)
    (s s1 : System σ) (order : List Nat) (i : Nat)
    (hinv : Serial calls w0 s order) (hstep : s.step i = some s1) (k : String) (a : Nat)
    (hk : mapGet s.world.game.Rooms k = some a) :
    mapGet s1.world.game.Rooms k = some a := by
  obtain ⟨t, t1, _, hti, hts, _, _⟩ := System.step_some s s1 i hstep
  obtain ⟨_, _, hcase⟩ := Task.step_cases t t1 s.world s1.world hts
  rcases hcase with ⟨_, _, _, hw⟩ | ⟨_, _, _, hw⟩ | ⟨_, _, _, _, hw⟩ |
    ⟨hpc, _, hw⟩ | ⟨_, _, _, _, hw⟩ | ⟨_, _, _, _, _, hw⟩ | ⟨_, _, hw⟩
  · rw [hw]; exact hk
  · rw [hw]; exact hk
  · rw [hw]; exact hk
  · have hheld := hinv.held i t hti (by simp [hpc, PC.holdsLock])
    unfold Held at hheld
    rw [hpc] at hheld
    simp only at hheld
    have hnone : mapGet s.world.game.Rooms t.name = none := by
      rw [hheld.1]
      exact hheld.2.1
    have hne : k ≠ t.name := by
      intro e
      rw [e, hnone] at hk
      exact absurd hk (by simp)
    rw [hw]
    simp only [createRoom]
    rw [mapGet_mapSet_other _ _ _ _ hne]
    exact hk
  · rw [hw]; exact hk
  · rw [hw]; exact hk
  · rw [hw]; exact hk

theorem Serial_run_keeps {σ : Type} (calls : List (String × Mutator σ)) (w0 : World σ)
    (schedule : List Nat) (k : String) (a : Nat) :
    ∀ (s : System σ) (order : List Nat), Serial calls w0 s order →
      mapGet s.world.game.Rooms k = some a →
      mapGet (s.run schedule).world.game.Rooms k = some a := by
  induction schedule with
  | nil => exact fun s order _ h => h
  | cons i rest ih =>
    intro s order h hk
    unfold System.run
    cases hs : s.step i with
    | none => exact ih s order h hk
    | some s1 =>
      obtain ⟨order1, h1, _⟩ := Serial_step calls w0 s s1 order i h hs
      exact ih s1 order1 h1 (Serial_step_keeps calls w0 s s1 order i h hs k a hk)

/-- The pointer a task is about to hand its callback is the one stored under its name. -/
theorem Serial_call_pointer {σ : Type} (calls : List (String × Mutator σ)) (w0 : World σ)
    (s : System σ) (order : List Nat) (hinv : Serial calls w0 s order)
    (i : Nat) (t : Task σ) (a : Nat) (hti : s.tasks[i]? = some t) (hpc : t.pc = PC.atCall a) :
    mapGet s.world.game.Rooms t.name = some a ∧ a < s.world.heap.length := by
  have hheld := hinv.held i t hti (by simp [hpc, PC.holdsLock])
  unfold Held at hheld
  rw [hpc] at hheld
  simp only at hheld
  have h := lookupOrCreate_get (lockRooms (serial calls w0 order)) t.name
  rw [hheld.1] at h
  exact ⟨h, OneRoomPerKey_lt s.world hinv.shape t.name a h⟩

/-- While a task stands between `Lock` and `Unlock`, no other task can advance. -/
theorem Serial_blocked {σ : Type} (calls : List (String × Mutator σ)) (w0 : World σ)
    (s : System σ) (order : List Nat) (hinv : Serial calls w0 s order)
    (i : Nat) (t : Task σ) (hti : s.tasks[i]? = some t) (hh : t.pc.holdsLock = true)
    (j : Nat) (hji : j ≠ i) : s.step j = none := by
  cases hs : s.step j with
  | none => rfl
  | some s1 =>
    exfalso
    obtain ⟨tj, tj1, hc, htj, hts, _, _⟩ := System.step_some s s1 j hs
    have hno := Serial_others calls w0 s order j tj tj1 s1.world hinv hc htj hts i t
      (fun e => hji e.symm) hti
    rw [hno] at hh
    exact absurd hh (by simp)

/-! ## Concurrent calls: every call comes to its end -/

theorem sum_remaining_set {σ : Type} (l : List (Task σ)) :
    ∀ (i : Nat) (t t1 : Task σ), l[i]? = some t →
      ((l.set i t1).map (fun x => x.pc.remaining)).sum + t.pc.remaining =
        (l.map (fun x => x.pc.remaining)).sum + t1.pc.remaining := by
  induction l with
  | nil =>
    intro i t t1 h
    simp at h
  | cons x rest ih =>
    intro i t t1 h
    cases i with
    | zero =>
      simp only [List.getElem?_cons_zero, Option.some.injEq] at h
      subst h
      simp only [List.set_cons_zero, List.map_cons, List.sum_cons]
      omega
    | succ i =>
      simp only [List.getElem?_cons_succ] at h
      have := ih i t t1 h
      simp only [List.set_cons_succ, List.map_cons, List.sum_cons]
      omega

/-- Every statement brings its task closer to its end. -/
theorem System.step_remaining {σ : Type} (s s1 : System σ) (i : Nat)
    (hstep : s.step i = some s1) : s1.remaining < s.remaining := by
  obtain ⟨t, t1, _, hti, hts, htasks, _⟩ := System.step_some s s1 i hstep
  have hsum := sum_remaining_set s.tasks i t t1 hti
  have hlt : t1.pc.remaining < t.pc.remaining := by
    obtain ⟨_, _, hcase⟩ := Task.step_cases t t1 s.world s1.world hts
    rcases hcase with ⟨hpc, _, hpc1, _⟩ | ⟨hpc, _, hpc1, _⟩ | ⟨_, hpc, _, hpc1, _⟩ |
      ⟨hpc, hpc1, _⟩ | ⟨_, hpc, _, hpc1, _⟩ | ⟨_, _, hpc, _, hpc1, _⟩ | ⟨hpc, hpc1, _⟩
    · rw [hpc, hpc1]; decide
    · rw [hpc, hpc1]; decide
    · rw [hpc, hpc1]; simp [PC.remaining]
    · rw [hpc, hpc1]; simp [PC.remaining]
    · rw [hpc, hpc1]; simp [PC.remaining]
    · rcases hpc1 with h | h <;> rw [hpc, h] <;> simp [PC.remaining]
    · rw [hpc, hpc1]; decide
  unfold System.remaining
  rw [htasks]
  omega

/-- No deadlock: unless the process is over, some task can advance. -/
theorem Serial_enabled {σ : Type} (calls : List (String × Mutator σ)) (w0 : World σ)
    (s : System σ) (order : List Nat) (hinv : Serial calls w0 s order)
    (hc : s.crashed = false)
    (hleft : ∃ (i : Nat) (t : Task σ), s.tasks[i]? = some t ∧ t.pc ≠ PC.returned) :
    ∃ j s1, s.step j = some s1 := by
  by_cases hholder : ∃ (i : Nat) (t : Task σ), s.tasks[i]? = some t ∧ t.pc.holdsLock = true
  · obtain ⟨i, t, hti, hh⟩ := hholder
    have hheld := hinv.held i t hti hh
    refine ⟨i, ?_⟩
    rw [System.step_of_task s i t hc hti]
    unfold Held at hheld
    cases hpc : t.pc with
    | atLock => rw [hpc] at hh; simp [PC.holdsLock] at hh
    | returned => rw [hpc] at hh; simp [PC.holdsLock] at hh
    | panicked =>
      rw [hpc] at hheld
      simp only at hheld
      rw [hheld.2] at hc
      exact absurd hc (by simp)
    | atLookup =>
      cases hget : mapGet s.world.game.Rooms t.name <;> simp [Task.step, hpc, hget]
    | atCreate => simp [Task.step, hpc]
    | atUnlock => simp [Task.step, hpc]
    | atCall a =>
      cases hcall : callMutator s.world a t.f with
      | none => simp [Task.step, hpc, hcall]
      | some p =>
        obtain ⟨w3, b⟩ := p
        cases b <;> simp [Task.step, hpc, hcall]
  · have hnone : ∀ (i : Nat) (t : Task σ), s.tasks[i]? = some t → t.pc.holdsLock = false := by
      intro i t hti
      cases hh : t.pc.holdsLock with
      | false => rfl
      | true => exact absurd ⟨i, t, hti, hh⟩ hholder
    obtain ⟨hworld, _⟩ := hinv.idle hnone
    obtain ⟨i, t, hti, hnr⟩ := hleft
    have hpc : t.pc = PC.atLock := by
      have hh := hnone i t hti
      cases hp : t.pc with
      | atLock => rfl
      | returned => exact absurd hp hnr
      | atLookup => rw [hp] at hh; simp [PC.holdsLock] at hh
      | atCreate => rw [hp] at hh; simp [PC.holdsLock] at hh
      | atCall a => rw [hp] at hh; simp [PC.holdsLock] at hh
      | atUnlock => rw [hp] at hh; simp [PC.holdsLock] at hh
      | panicked => rw [hp] at hh; simp [PC.holdsLock] at hh
    have hfree : s.world.game.RoomsLock = false := by
      rw [hworld]
      exact hinv.free
    refine ⟨i, ?_⟩
    rw [System.step_of_task s i t hc hti]
    simp [Task.step, hpc, hfree]

/-- Every run can be continued to the end of the process: a panic, or every call
returned. -/
theorem Serial_progress {σ : Type} (calls : List (String × Mutator σ)) (w0 : World σ)
    (n : Nat) :
    ∀ (s : System σ) (order : List Nat), s.remaining ≤ n → Serial calls w0 s order →
      ∃ more order1, Serial calls w0 (s.run more) order1 ∧
        ((s.run more).crashed = true ∨
          ∀ (i : Nat) (t : Task σ), (s.run more).tasks[i]? = some t → t.pc = PC.returned) := by
  induction n with
  | zero =>
    intro s order hn hinv
    by_cases hc : s.crashed = true
    · exact ⟨[], order, hinv, Or.inl hc⟩
    by_cases hall : ∀ (i : Nat) (t : Task σ), s.tasks[i]? = some t → t.pc = PC.returned
    · exact ⟨[], order, hinv, Or.inr hall⟩
    exfalso
    have hleft : ∃ (i : Nat) (t : Task σ), s.tasks[i]? = some t ∧ t.pc ≠ PC.returned := by
      by_contra hne
      apply hall
      intro i t hti
      by_contra hp
      exact hne ⟨i, t, hti, hp⟩
    obtain ⟨j, s1, hs⟩ := Serial_enabled calls w0 s order hinv (by simpa using hc) hleft
    have := System.step_remaining s s1 j hs
    omega
  | succ n ih =>
    intro s order hn hinv
    by_cases hc : s.crashed = true
    · exact ⟨[], order, hinv, Or.inl hc⟩
    by_cases hall : ∀ (i : Nat) (t : Task σ), s.tasks[i]? = some t → t.pc = PC.returned
    · exact ⟨[], order, hinv, Or.inr hall⟩
    have hleft : ∃ (i : Nat) (t : Task σ), s.tasks[i]? = some t ∧ t.pc ≠ PC.returned := by
      by_contra hne
      apply hall
      intro i t hti
      by_contra hp
      exact hne ⟨i, t, hti, hp⟩
    obtain ⟨j, s1, hs⟩ := Serial_enabled calls w0 s order hinv (by simpa using hc) hleft
    have hlt := System.step_remaining s s1 j hs
    obtain ⟨order1, h1, _⟩ := Serial_step calls w0 s s1 order j hinv hs
    obtain ⟨more, order2, h2, h3⟩ := ih s1 order1 (by omega) h1
    refine ⟨j :: more, order2, ?_, ?_⟩
    · simp only [System.run, hs]
      exact h2
    · simp only [System.run, hs]
      exact h3

/-- When no callback panics, no statement ends the process. -/
theorem Serial_step_alive {σ : Type} (calls : List (String × Mutator σ)) (w0 : World σ)
    (s s1 : System σ) (order : List Nat) (i : Nat)
    (hsafe : ∀ c, c ∈ calls → ∀ a room env, (c.2 a room env).panicked = false)
    (hinv : Serial calls w0 s order) (hstep : s.step i = some s1) :
    s1.crashed = false := by
  obtain ⟨t, t1, _, hti, hts, _, hcr⟩ := System.step_some s s1 i hstep
  rw [hcr]
  cases hp1 : t1.pc with
  | panicked =>
    exfalso
    obtain ⟨_, _, hcase⟩ := Task.step_cases t t1 s.world s1.world hts
    have hmemc : (t.name, t.f) ∈ calls := by
      have := hinv.tasks i
      rw [hti] at this
      simp only [Option.map_some'] at this
      exact List.getElem?_mem this.symm
    rcases hcase with ⟨_, _, h, _⟩ | ⟨_, _, h, _⟩ | ⟨_, _, _, h, _⟩ | ⟨_, h, _⟩ |
      ⟨a, hpc, hroom, _, _⟩ | ⟨a, room, hpc, hroom, _, _⟩ | ⟨_, h, _⟩
    · rw [hp1] at h; exact absurd h (by simp)
    · rw [hp1] at h; exact absurd h (by simp)
    · rw [hp1] at h; exact absurd h (by simp)
    · rw [hp1] at h; exact absurd h (by simp)
    · have hlt := (Serial_call_pointer calls w0 s order hinv i t a hti hpc).2
      rw [List.getElem?_eq_none_iff] at hroom
      omega
    · obtain ⟨_, _, hcall⟩ := Task.step_call t t1 s.world s1.world a hpc hts
      have hf := hsafe (t.name, t.f) hmemc a room s.world.env
      rcases hcall with ⟨hc, _⟩ | ⟨hc, _⟩ | ⟨_, h⟩
      · simp [callMutator, hroom] at hc
      · simp only [callMutator, hroom, Option.some.injEq, Prod.mk.injEq] at hc
        rw [hf] at hc
        exact absurd hc.2 (by simp)
      · rw [hp1] at h; exact absurd h (by simp)
    · rw [hp1] at h; exact absurd h (by simp)
  | atLock => rfl
  | atLookup => rfl
  | atCreate => rfl
  | atCall a => rfl
  | atUnlock => rfl
  | returned => rfl

theorem Serial_run_alive {σ : Type} (calls : List (String × Mutator σ)) (w0 : World σ)
    (hsafe : ∀ c, c ∈ calls → ∀ a room env, (c.2 a room env).panicked = false)
    (schedule : List Nat) :
    ∀ (s : System σ) (order : List Nat), Serial calls w0 s order → s.crashed = false →
      (s.run schedule).crashed = false := by
  induction schedule with
  | nil => exact fun s order _ h => h
  | cons i rest ih =>
    intro s order h hc
    unfold System.run
    cases hs : s.step i with
    | none => exact ih s order h hc
    | some s1 =>
      obtain ⟨order1, h1, _⟩ := Serial_step calls w0 s s1 order i h hs
      exact ih s1 order1 h1 (Serial_step_alive calls w0 s s1 order i hsafe h hs)

theorem Serial_length {σ : Type} (calls : List (String × Mutator σ)) (w0 : World σ)
    (s : System σ) (order : List Nat) (hinv : Serial calls w0 s order) :
    s.tasks.length = calls.length := by
  rcases Nat.lt_trichotomy s.tasks.length calls.length with h | h | h
  · have := hinv.tasks s.tasks.length
    rw [List.getElem?_eq_none (Nat.le_refl _), List.getElem?_eq_getElem h] at this
    simp at this
  · exact h
  · have := hinv.tasks calls.length
    rw [List.getElem?_eq_none (Nat.le_refl _), List.getElem?_eq_getElem h] at this
    simp at this

/-- When every call has returned, the order lists every call once and the world
is what the calls made in that order leave. -/
theorem Serial_complete {σ : Type} (calls : List (String × Mutator σ)) (w0 : World σ)
    (s : System σ) (order : List Nat) (hinv : Serial calls w0 s order)
    (hall : ∀ (i : Nat) (t : Task σ), s.tasks[i]? = some t → t.pc = PC.returned) :
    order.Perm (List.range calls.length) ∧ s.world = serial calls w0 order ∧
    s.crashed = false := by
  have hlen := Serial_length calls w0 s order hinv
  have hidle := hinv.idle (fun i t hti => by rw [hall i t hti]; rfl)
  refine ⟨?_, hidle.1, hidle.2⟩
  rw [List.perm_ext_iff_of_nodup hinv.nodup (List.nodup_range _)]
  intro i
  rw [hinv.mem i, List.mem_range, ← hlen]
  constructor
  · rintro ⟨t, hti, _⟩
    rcases Nat.lt_or_ge i s.tasks.length with h | h
    · exact h
    · rw [List.getElem?_eq_none h] at hti
      exact absurd hti (by simp)
  · intro h
    exact ⟨s.tasks[i], List.getElem?_eq_getElem h, hall i _ (List.getElem?_eq_getElem h)⟩

/-! ## Concurrent calls of `OpenRoom`: the whole statement -/

theorem System.init_eq_start {σ : Type} (w0 : World σ) (calls : List (String × Mutator σ))
    (name : String) (hfree : w0.game.RoomsLock = false) (hrooms : w0.game.Rooms = [])
    (hheap : w0.heap = []) (hnames : ∀ c, c ∈ calls → c.1 = name) :
    System.init w0 calls = System.start w0.env w0.game.Port name (calls.map Prod.snd) := by
  obtain ⟨⟨rooms, lock, port⟩, heap, env⟩ := w0
  simp only at hfree hrooms hheap
  subst hfree hrooms hheap
  simp only [System.init, System.start, List.map_map, System.mk.injEq, true_and, and_true]
  apply List.map_congr_left
  intro c hc
  simp [hnames c hc]

theorem OneRoomPerKey_empty {σ : Type} (w : World σ) (hrooms : w.game.Rooms = [])
    (hheap : w.heap = []) : OneRoomPerKey w := by
  simp [OneRoomPerKey, hrooms, hheap]

theorem Serial_reached {σ : Type} (w0 : World σ) (calls : List (String × Mutator σ))
    (schedule : List Nat) (hfree : w0.game.RoomsLock = false) (hshape : OneRoomPerKey w0) :
    ∃ order, Serial calls w0 (System.reachedFrom w0 calls schedule) order :=
  Serial_run calls w0 schedule _ [] (Serial_init calls w0 hfree hshape)

theorem System.reachedFrom_append {σ : Type} (w0 : World σ)
    (calls : List (String × Mutator σ)) (schedule more : List Nat) :
    System.reachedFrom w0 calls (schedule ++ more) =
      (System.reachedFrom w0 calls schedule).run more :=
  System.run_append schedule more _

/-- C6: tasks that each call `OpenRoom` (with any names and callbacks) from a
registry with the mutex free and one room per key, under any schedule.
(1) Every room on the heap is stored under a key of its own. (2) A callback is
called with the pointer stored under its name, and (3) two callbacks of the same
name, whenever they run, are called with the same pointer. (4) At most one task
stands between `Lock` and `Unlock`; (5) while one does, no other task can
advance; (6) a task outside `Lock`/`Unlock` that advances leaves map and rooms
as they are. (7) The calls that have returned did so in some order, and the
world is what these calls made one after the other leave, advanced by the
statements of the task holding the mutex. (8) Every run can be continued until
a callback panics or every call has returned; (9) when no callback panics it can
be continued until every call has returned, and the world is then what the
calls made one after the other, each once, in some order leave. (10) From the
empty registry with every call for the same name: the heap never holds more
than one room, it holds exactly one (stored under the name, at address 0) once
a call is past the creation, every callback gets address 0, and a run of at
least one call with no panicking callback ends with exactly one room. -/
theorem one_room_per_name {σ : Type} (w0 : World σ) (calls : List (String × Mutator σ))
    (schedule : List Nat) (hfree : w0.game.RoomsLock = false) (hshape : OneRoomPerKey w0) :
    OneRoomPerKey (System.reachedFrom w0 calls schedule).world ∧
    (∀ (i : Nat) (t : Task σ) (a : Nat),
      (System.reachedFrom w0 calls schedule).tasks[i]? = some t → t.pc = PC.atCall a →
      mapGet (System.reachedFrom w0 calls schedule).world.game.Rooms t.name = some a ∧
      a < (System.reachedFrom w0 calls schedule).world.heap.length) ∧
    (∀ (more : List Nat) (i j : Nat) (ti tj : Task σ) (a b : Nat),
      (System.reachedFrom w0 calls schedule).tasks[i]? = some ti → ti.pc = PC.atCall a →
      (System.reachedFrom w0 calls (schedule ++ more)).tasks[j]? = some tj →
      tj.pc = PC.atCall b → ti.name = tj.name → a = b) ∧
    (∀ (i j : Nat) (ti tj : Task σ),
      (System.reachedFrom w0 calls schedule).tasks[i]? = some ti →
      (System.reachedFrom w0 calls schedule).tasks[j]? = some tj →
      ti.pc.holdsLock = true → tj.pc.holdsLock = true → i = j) ∧
    (∀ (i : Nat) (t : Task σ),
      (System.reachedFrom w0 calls schedule).tasks[i]? = some t → t.pc.holdsLock = true →
      ∀ j, j ≠ i → (System.reachedFrom w0 calls schedule).step j = none) ∧
    (∀ (j : Nat) (tj : Task σ) (s1 : System σ),
      (System.reachedFrom w0 calls schedule).tasks[j]? = some tj →
      tj.pc.holdsLock = false →
      (System.reachedFrom w0 calls schedule).step j = some s1 →
      s1.world.heap = (System.reachedFrom w0 calls schedule).world.heap ∧
      s1.world.game.Rooms = (System.reachedFrom w0 calls schedule).world.game.Rooms) ∧
    (∃ order : List Nat, order.Nodup ∧
      (∀ i, i ∈ order ↔ ∃ t : Task σ,
        (System.reachedFrom w0 calls schedule).tasks[i]? = some t ∧ t.pc = PC.returned) ∧
      ((∀ (i : Nat) (t : Task σ),
          (System.reachedFrom w0 calls schedule).tasks[i]? = some t →
          t.pc.holdsLock = false) →
        (System.reachedFrom w0 calls schedule).world = serial calls w0 order ∧
        (System.reachedFrom w0 calls schedule).crashed = false) ∧
      (∀ (i : Nat) (t : Task σ),
        (System.reachedFrom w0 calls schedule).tasks[i]? = some t → t.pc.holdsLock = true →
        Held (serial calls w0 order) t (System.reachedFrom w0 calls schedule).world
          (System.reachedFrom w0 calls schedule).crashed)) ∧
    (∃ more : List Nat,
      (System.reachedFrom w0 calls (schedule ++ more)).crashed = true ∨
      ∀ (i : Nat) (t : Task σ),
        (System.reachedFrom w0 calls (schedule ++ more)).tasks[i]? = some t →
        t.pc = PC.returned) ∧
    ((∀ c, c ∈ calls → ∀ a room env, (c.2 a room env).panicked = false) →
      ∃ (more order : List Nat), order.Perm (List.range calls.length) ∧
        (System.reachedFrom w0 calls (schedule ++ more)).world = serial calls w0 order ∧
        (System.reachedFrom w0 calls (schedule ++ more)).crashed = false ∧
        (System.reachedFrom w0 calls (schedule ++ more)).tasks.length = calls.length ∧
        ∀ (i : Nat) (t : Task σ),
          (System.reachedFrom w0 calls (schedule ++ more)).tasks[i]? = some t →
          t.pc = PC.returned) ∧
    (∀ name : String, w0.game.Rooms = [] → w0.heap = [] → (∀ c, c ∈ calls → c.1 = name) →
      (System.reachedFrom w0 calls schedule).world.heap.length ≤ 1 ∧
      (∀ (i : Nat) (t : Task σ),
        (System.reachedFrom w0 calls schedule).tasks[i]? = some t →
        ((∃ a, t.pc = PC.atCall a) ∨ t.pc = PC.atUnlock ∨ t.pc = PC.returned) →
        (System.reachedFrom w0 calls schedule).world.heap.length = 1 ∧
        (System.reachedFrom w0 calls schedule).world.game.Rooms = [(name, 0)]) ∧
      (∀ (i : Nat) (t : Task σ) (a : Nat),
        (System.reachedFrom w0 calls schedule).tasks[i]? = some t → t.pc = PC.atCall a →
        a = 0) ∧
      (calls ≠ [] → (∀ c, c ∈ calls → ∀ a room env, (c.2 a room env).panicked = false) →
        ∃ more : List Nat,
          (System.reachedFrom w0 calls (schedule ++ more)).world.heap.length = 1 ∧
          (System.reachedFrom w0 calls (schedule ++ more)).world.game.Rooms = [(name, 0)] ∧
          ∀ (i : Nat) (t : Task σ),
            (System.reachedFrom w0 calls (schedule ++ more)).tasks[i]? = some t →
            t.pc = PC.returned)) := by
  obtain ⟨order, hinv⟩ := Serial_reached w0 calls schedule hfree hshape
  -- the run continued to its end, when no callback panics
  have hend : (∀ c, c ∈ calls → ∀ a room env, (c.2 a room env).panicked = false) →
      ∃ (more order : List Nat), order.Perm (List.range calls.length) ∧
        (System.reachedFrom w0 calls (schedule ++ more)).world = serial calls w0 order ∧
        (System.reachedFrom w0 calls (schedule ++ more)).crashed = false ∧
        (System.reachedFrom w0 calls (schedule ++ more)).tasks.length = calls.length ∧
        ∀ (i : Nat) (t : Task σ),
          (System.reachedFrom w0 calls (schedule ++ more)).tasks[i]? = some t →
          t.pc = PC.returned := by
    intro hsafe
    obtain ⟨more, order1, h1, h2⟩ := Serial_progress calls w0 _ _ order (Nat.le_refl _) hinv
    have halive : (System.reachedFrom w0 calls (schedule ++ more)).crashed = false :=
      Serial_run_alive calls w0 hsafe (schedule ++ more) _ []
        (Serial_init calls w0 hfree hshape) rfl
    rw [← System.reachedFrom_append] at h1 h2
    rcases h2 with h2 | h2
    · rw [halive] at h2
      exact absurd h2 (by simp)
    · obtain ⟨hp, hw, hc⟩ := Serial_complete calls w0 _ order1 h1 h2
      exact ⟨more, order1, hp, hw, hc, Serial_length calls w0 _ order1 h1, h2⟩
  refine ⟨hinv.shape, ?_, ?_, hinv.unique, ?_, ?_, ?_, ?_, hend, ?_⟩
  · exact fun i t a hti hpc => Serial_call_pointer calls w0 _ order hinv i t a hti hpc
  · intro more i j ti tj a b hti hpa htj hpb hname
    have h1 := (Serial_call_pointer calls w0 _ order hinv i ti a hti hpa).1
    have h2 := Serial_run_keeps calls w0 more ti.name a _ order hinv h1
    rw [← System.reachedFrom_append] at h2
    obtain ⟨order1, hinv1⟩ := Serial_reached w0 calls (schedule ++ more) hfree hshape
    have h3 := (Serial_call_pointer calls w0 _ order1 hinv1 j tj b htj hpb).1
    rw [hname, h3] at h2
    simpa using h2.symm
  · exact fun i t hti hh j hji => Serial_blocked calls w0 _ order hinv i t hti hh j hji
  · intro j tj s1 htj hno hs
    obtain ⟨h1, h2, _⟩ := step_outside_lock _ s1 j tj htj hno hs
    exact ⟨h1, h2⟩
  · exact ⟨order, hinv.nodup, hinv.mem, hinv.idle, hinv.held⟩
  · obtain ⟨more, order1, _, h2⟩ := Serial_progress calls w0 _ _ order (Nat.le_refl _) hinv
    rw [← System.reachedFrom_append] at h2
    exact ⟨more, h2⟩
  · intro name hrooms hheap hnames
    have heq := System.init_eq_start w0 calls name hfree hrooms hheap hnames
    have hsame : ∀ sched, System.reachedFrom w0 calls sched =
        System.reached w0.env w0.game.Port name (calls.map Prod.snd) sched := by
      intro sched
      simp only [System.reachedFrom, System.reached, heq]
    obtain ⟨g1, g2, g3, _⟩ :=
      same_name_single_room w0.env w0.game.Port name (calls.map Prod.snd) schedule
    rw [← hsame schedule] at g1 g2 g3
    refine ⟨g1, g2, fun i t a hti hpc => (g3 i t a hti hpc).1, ?_⟩
    intro hne hsafe
    obtain ⟨more, _, _, _, _, hlen, hret⟩ := hend hsafe
    obtain ⟨_, k2, _⟩ :=
      same_name_single_room w0.env w0.game.Port name (calls.map Prod.snd) (schedule ++ more)
    rw [← hsame (schedule ++ more)] at k2
    have hpos : 0 < (System.reachedFrom w0 calls (schedule ++ more)).tasks.length := by
      rw [hlen]
      exact List.length_pos.mpr hne
    have h0 := List.getElem?_eq_getElem hpos
    obtain ⟨k3, k4⟩ := k2 0 _ h0 (Or.inr (Or.inr (hret 0 _ h0)))
    exact ⟨more, k3, k4, hret⟩

/-- The witness of C6: two sessions, one joining `lobby` and one joining `den`,
from the empty registry, after the schedule `1, 0, 1, 0`. -/
theorem one_room_per_name_witness :
    OneRoomPerKey (System.reachedFrom (World.start 6000)
      [("lobby", joinMutator (sessionClient connAlice 1)),
       ("den", joinMutator (sessionClient connBob 1))] [1, 0, 1, 0]).world ∧
    ∃ more : List Nat,
      (System.reachedFrom (World.start 6000)
        [("lobby", joinMutator (sessionClient connAlice 1)),
         ("den", joinMutator (sessionClient connBob 1))] ([1, 0, 1, 0] ++ more)).crashed = true ∨
      ∀ (i : Nat) (t : Task Log),
        (System.reachedFrom (World.start 6000)
          [("lobby", joinMutator (sessionClient connAlice 1)),
           ("den", joinMutator (sessionClient connBob 1))] ([1, 0, 1, 0] ++ more)).tasks[i]?
          = some t → t.pc = PC.returned :=
  ⟨(one_room_per_name (World.start 6000)
      [("lobby", joinMutator (sessionClient connAlice 1)),
       ("den", joinMutator (sessionClient connBob 1))] [1, 0, 1, 0] rfl
      (OneRoomPerKey_empty _ rfl rfl)).1,
   (one_room_per_name (World.start 6000)
      [("lobby", joinMutator (sessionClient connAlice 1)),
       ("den", joinMutator (sessionClient connBob 1))] [1, 0, 1, 0] rfl
      (OneRoomPerKey_empty _ rfl rfl)).2.2.2.2.2.2.2.1⟩

/-- Two sessions joining different rooms under an interleaved schedule: each room
holds its client, and the world is the one the two calls leave when made one
after the other, the second task first. -/
theorem two_rooms_interleaved :
    (System.reachedFrom (World.start 6000)
      [("lobby", joinMutator (sessionClient connAlice 1)),
       ("den", joinMutator (sessionClient connBob 1))]
      [1, 0, 1, 0, 1, 0, 1, 0, 1, 1, 0, 0, 0, 0]).world.heap =
      [{ Name := "den", Clients := [sessionClient connBob 1] },
       { Name := "lobby", Clients := [sessionClient connAlice 1] }] ∧
    (System.reachedFrom (World.start 6000)
      [("lobby", joinMutator (sessionClient connAlice 1)),
       ("den", joinMutator (sessionClient connBob 1))]
      [1, 0, 1, 0, 1, 0, 1, 0, 1, 1, 0, 0, 0, 0]).world.game.Rooms =
      [("den", 0), ("lobby", 1)] ∧
    (serial [("lobby", joinMutator (sessionClient connAlice 1)),
             ("den", joinMutator (sessionClient connBob 1))] (World.start 6000) [1, 0]).heap =
      [{ Name := "den", Clients := [sessionClient connBob 1] },
       { Name := "lobby", Clients := [sessionClient connAlice 1] }] := by
  decide

end SecretAgent
